import Mathlib

/-!
# Verification of the jayk IRC chatbot core

Shallow embedding of the jayk repository's core components, translated from
the Python sources:

* `src/jayk/irc/__init__.py` — the message codec (`User`, `Message`,
  `Message.parse`, `Message.__str__`);
* `src/jayk/chatbot.py` — the base connection state machine (`IRCChatbot`:
  nickname rotation, keep-alive, membership events, `data_received`);
* `src/jayk/cli/module.py` — the CLI reconciliation engine
  (`JaykChatbot.match_desired_modules`, `JaykIRCChatbot.match_desired_rooms`,
  `JaykModule.update_config`, `JaykMeta` command dispatch).

Machine strings are Lean `String`s; Python regexes are rendered as
deterministic character-level parsers (the source regexes have no observable
backtracking: every quantified character class is disjoint from the
character that follows it, so greedy maximal-munch matching is exact).
-/

/-! ## Character classes used by the source regexes -/

/-- `[a-zA-Z]` from `Message.MESSAGE_RE` (ASCII letters only, as in Python). -/
def isAsciiLetter (c : Char) : Bool :=
  (97 ≤ c.toNat && c.toNat ≤ 122) || (65 ≤ c.toNat && c.toNat ≤ 90)

/-- `[0-9]` from `Message.MESSAGE_RE`. -/
def isAsciiDigit (c : Char) : Bool :=
  48 ≤ c.toNat && c.toNat ≤ 57

/-- `[^: \r\n]`, the character class of a middle parameter in
`Message.MESSAGE_RE`. -/
def paramChar (c : Char) : Bool :=
  !(c = ':' || c = ' ' || c = '\r' || c = '\n')

/-- `[^\r\n]`, the character class of the trailing parameter. -/
def notCRLF (c : Char) : Bool :=
  !(c = '\r' || c = '\n')

/-- Greedy span: longest initial run satisfying `p`, plus the remainder.
Mirrors a greedy `+`/`*` over a character class. -/
def spanP (p : Char → Bool) (cs : List Char) : List Char × List Char :=
  (cs.takeWhile p, cs.dropWhile p)

/-! ## `User` (src/jayk/irc/__init__.py, class User) -/

/-- Parsed sender identity, from `User.__init__`. -/
structure IrcUser where
  nick : String
  username : String
  host : String
deriving DecidableEq, Repr

/-- `User.parse`, i.e. matching `User.RE =
"(?P<nick>[^!]+)!(?P<user>[^@]+)@(?P<host>.+)"` with `re.match` (anchored at
the start only, so trailing input after the host run is ignored).  The
negated classes `[^!]`/`[^@]` admit every other character, newlines
included; `.` matches every character except `\n` — in particular it does
match `\r`.  Since `[^!]+` can never cross a `!` (and similarly for `@`),
the match is deterministic: nick is the run before the first `!`, username
the run before the first `@` after it, host the nonempty maximal `\n`-free
run after that `@`.  Returns `none` where Python raises
`ValueError("Invalid user pattern")`. -/
def parseUser (s : String) : Option IrcUser :=
  let p := spanP (fun c => decide (c ≠ '!')) s.data
  match p.2 with
  | '!' :: rest =>
    if p.1 = [] then none
    else
      let q := spanP (fun c => decide (c ≠ '@')) rest
      match q.2 with
      | '@' :: rest2 =>
        if q.1 = [] then none
        else
          let hostRun := spanP (fun c => decide (c ≠ '\n')) rest2
          if hostRun.1 = [] then none
          else some ⟨p.1.asString, q.1.asString, hostRun.1.asString⟩
      | _ => none
  | _ => none

/-! ## `Message` (src/jayk/irc/__init__.py, class Message) -/

/-- One protocol unit: `Message.__init__(prefix, command, params)`.
The Python field `prefix` is called `pfx` here. -/
structure Msg where
  pfx : Option String
  command : String
  params : List String
deriving DecidableEq, Repr

/-- The `self.user` field computed in `Message.__init__`:
`User.parse(self.prefix)` with every exception swallowed (`prefix=None`
raises `TypeError`, a non-matching string raises `ValueError`; both leave
`self.user = None`).  The field is never mutated, so we expose it as a
function of the message. -/
def Msg.user (m : Msg) : Option IrcUser :=
  m.pfx.bind parseUser

/-- Modelled from the spec: `response.CODE_TO_NAME` lives in
`src/jayk/irc/response.py`, which is absent from the sources (only its
callers are present).  Per the spec, it is a fixed table resolving numeric
3-digit command codes to symbolic reply names, with unknown codes kept as
their numeric strings; the replies the state machine consumes are the
registration-complete reply (`RPL_MYINFO`) and the nickname-rejection
replies. -/
def codeToName (n : Nat) : Option String :=
  match n with
  | 4 => some "RPL_MYINFO"
  | 432 => some "ERR_ERRONEUSNICKNAME"
  | 433 => some "ERR_NICKNAMEINUSE"
  | _ => none

/-- Modelled from the spec: `response.NICK_ERRORS` also lives in the absent
`src/jayk/irc/response.py`; per the spec it is the set of
"nickname invalid/in-use" replies. -/
def NICK_ERRORS : List String :=
  ["ERR_ERRONEUSNICKNAME", "ERR_NICKNAMEINUSE"]

/-- The optional prefix segment `(:(?P<prefix>[^ ]+) )?` of
`Message.MESSAGE_RE`.  Returns `(prefix?, rest)`; `none` means the whole
match fails (when the line starts with `:` but the prefix group cannot match,
the regex falls back to the empty alternative and the command then fails on
the leading `:`). -/
def takePfx : List Char → Option (Option (List Char) × List Char)
  | ':' :: rest =>
    let p := spanP (fun c => decide (c ≠ ' ')) rest
    match p.2 with
    | ' ' :: rest2 => if p.1 = [] then none else some (some p.1, rest2)
    | _ => none
  | cs => some (none, cs)

/-- The command segment `(?P<command>[a-zA-Z]+|[0-9]{3})`. -/
def takeCommand : List Char → Option (List Char × List Char)
  | [] => none
  | c :: cs =>
    if isAsciiLetter c then some (spanP isAsciiLetter (c :: cs))
    else
      match c :: cs with
      | a :: b :: d :: rest =>
        if isAsciiDigit a && isAsciiDigit b && isAsciiDigit d then
          some ([a, b, d], rest)
        else none
      | _ => none

/-- The middle-parameter segment `(?P<params>( [^: \r\n]+)*)`, already split
into the individual tokens (`Message.parse` splits the group on single
spaces and discards empty tokens, which yields exactly these runs).
An explicit fuel argument (bounded by the input length, which each
iteration strictly shrinks) keeps the recursion structural. -/
def takeParamsF : Nat → List Char → List (List Char) × List Char
  | 0, cs => ([], cs)
  | fuel + 1, cs =>
    match cs with
    | [] => ([], [])
    | c :: cs2 =>
      if c = ' ' then
        let p := spanP paramChar cs2
        if p.1 = [] then ([], c :: cs2)
        else
          let r := takeParamsF fuel p.2
          (p.1 :: r.1, r.2)
      else ([], c :: cs2)

/-- `takeParamsF` with enough fuel. -/
def takeParams (cs : List Char) : List (List Char) × List Char :=
  takeParamsF cs.length cs

/-- The trailing segment `(?P<trailing> :[^\r\n]+)?`.  Returns the
*contents* after the `" :"` introducer (what `trailing[2:]` extracts). -/
def takeTrailing : List Char → Option (List Char) × List Char
  | ' ' :: ':' :: rest =>
    let p := spanP notCRLF rest
    if p.1 = [] then (none, ' ' :: ':' :: rest) else (some p.1, p.2)
  | cs => (none, cs)

/-- `$` of `Message.MESSAGE_RE` under `re.MULTILINE`: end of input or a
position just before a newline. -/
def atEol : List Char → Bool
  | [] => true
  | '\n' :: _ => true
  | _ => false

/-- `Message.parse` (src/jayk/irc/__init__.py:96-119): match
`MESSAGE_RE`, resolve a numeric command through `CODE_TO_NAME` (leaving it
unchanged when `int(command)` fails or the code is unknown), split the
middle parameters, and append the trailing parameter.  `none` models
`raise ValueError("invalid IRC message: ...")`. -/
def parseMessage (line : String) : Option Msg := do
  let (pfx?, r1) ← takePfx line.data
  let (cmdCs, r2) ← takeCommand r1
  let (toks, r3) := takeParams r2
  let (tr, r4) := takeTrailing r3
  if atEol r4 then
    let cmd := cmdCs.asString
    let cmd' :=
      if cmdCs.all isAsciiDigit && !cmdCs.isEmpty then
        (codeToName (cmdCs.foldl (fun n c => 10 * n + (c.toNat - 48)) 0)).getD cmd
      else cmd
    some ⟨pfx?.map List.asString, cmd',
          toks.map List.asString ++ (match tr with | some t => [t.asString] | none => [])⟩
  else none

/-- `str.upper()` on the ASCII command strings the codec emits. -/
def strUpperChars (cs : List Char) : List Char :=
  cs.map Char.toUpper

/-- `sep.join(parts)` at character level. -/
def joinChars (sep : Char) : List String → List Char
  | [] => []
  | [t] => t.data
  | t :: ts => t.data ++ sep :: joinChars sep ts

/-- `Message.__str__` (src/jayk/irc/__init__.py:83-94): `":{prefix} "` when
the prefix is truthy, the upper-cased command, then `" " + ' '.join(params)`
when the parameter list is truthy.  (No `:` is ever added in front of the
last parameter.) -/
def Msg.format (m : Msg) : String :=
  ((match m.pfx with
    | some p => if p ≠ "" then ':' :: p.data ++ [' '] else []
    | none => []) ++
   strUpperChars m.command.data ++
   (if m.params = [] then [] else ' ' :: joinChars ' ' m.params)).asString

/-! ## Python string splitting -/

/-- Split a character list at every separator recognised by `p`, keeping
empty segments (the semantics of Python `str.split(sep)` with an explicit
separator): the empty input yields one empty segment. -/
def splitSepBy (p : Char → Bool) : List Char → List (List Char)
  | [] => [[]]
  | c :: cs =>
    match splitSepBy p cs with
    | [] => [[]]
    | t :: ts => if p c then [] :: t :: ts else (c :: t) :: ts

/-- Python `str.split(' ')`: split at each single space, keeping empties. -/
def pySplitSpace (s : String) : List String :=
  (splitSepBy (fun c => c = ' ') s.data).map List.asString

/-- The ASCII whitespace recognised by Python `str.split()` with no
argument (the sources only ever split ASCII chat text). -/
def pyWhitespace (c : Char) : Bool :=
  c = ' ' || c = '\t' || c = '\n' || c = '\r' || c = '\x0b' || c = '\x0c'

/-- Python `str.split()` with no argument: maximal runs of non-whitespace
(equivalently, split at every whitespace character and drop the empties). -/
def pySplitWs (s : String) : List String :=
  ((splitSepBy pyWhitespace s.data).map List.asString).filter (fun t => t ≠ "")

/-- Python `data.split("\r\n")`: left-to-right scan for the two-character
separator, keeping empty segments. -/
def splitCRLF : List Char → List (List Char)
  | [] => [[]]
  | '\r' :: '\n' :: rest => [] :: splitCRLF rest
  | c :: rest =>
    match splitCRLF rest with
    | [] => [[c]]
    | t :: ts => (c :: t) :: ts

/-- `str.split("\r\n")` on a string. -/
def pySplitCRLF (s : String) : List String :=
  (splitCRLF s.data).map List.asString

/-! ## Command dispatch (src/jayk/cli/module.py, `JaykMeta` and
`JaykModule.on_message`) -/

/-- Which handler(s) a module runs for one message. -/
inductive Handled where
  | cmd (tok : String)
  | catchAll
deriving DecidableEq, Repr

/-- The first whitespace-delimited token of a message (how the spec's
dispatch rule identifies the command token). -/
def firstWsToken (msg : String) : Option String :=
  (pySplitWs msg).head?

/-- Message dispatch of a single module built by `JaykMeta.__new__`
(src/jayk/cli/module.py:386-423).  `commands` is the key set of the
collected `_jayk_commands` table; `hasCatchAll` says whether the class body
overrides `on_message`.

* commands present and `on_message` overridden: the metaclass installs
  `on_message_wrapper`, which splits the message with `msg.split(' ')`
  (single spaces) and runs the mapped handler when the first field is a
  registered command, otherwise the wrapped catch-all.
* `on_message` overridden, no commands: the override (catch-all) handles
  every message.
* no override: the inherited `JaykModule.on_message`
  (src/jayk/cli/module.py:307-324) splits with `message.split()`
  (whitespace) and runs the mapped handler on a match, else nothing. -/
def jaykDispatch (commands : List String) (hasCatchAll : Bool) (msg : String) :
    List Handled :=
  if hasCatchAll then
    if commands ≠ [] then
      let parts := pySplitSpace msg
      match parts.head? with
      | some t => if commands.contains t then [.cmd t] else [.catchAll]
      | none => [.catchAll]
    else [.catchAll]
  else
    let parts := pySplitWs msg
    match parts.head? with
    | some t => if commands.contains t then [.cmd t] else []
    | none => []

/-! ## Observable actions and Python exceptions -/

/-- The `who` argument handed to room-membership callbacks.  The source is
inconsistent (its own TODO notes it): `JOIN` passes the `User` object,
`KICK` passes the nick string from `params[1]`, `PART` passes
`message.user.nick`. -/
inductive WhoArg where
  | user (u : IrcUser)
  | nickStr (s : String)
deriving DecidableEq, Repr

/-- Observable actions of the chatbot: outbound sends (`_send_command`
builds a `Message` and writes its formatted line), log lines, and
module-callback invocations. -/
inductive Ev where
  | send (m : Msg)
  | logError (line : String)
  | warnModulesOutOfSync
  | modOnMessage (i : Nat) (room : String) (sender : IrcUser) (text : String)
  | modOnJoin (i : Nat) (room : String) (who : Option WhoArg)
  | modOnLeave (i : Nat) (room : String) (who : Option WhoArg)
  | onUnload (name : String)
  | loadInstance (name : String) (instId : Nat)
  | updateConfig (name : String)
  | onUpdateParams (name : String) (ps : List (String × String))
deriving DecidableEq, Repr

/-- Uncaught Python exceptions of the modelled code paths. -/
inductive PyErr where
  | indexError
  | attributeError
  | keyError
  | nameError
  | noMoreNicks
deriving DecidableEq, Repr

/-- Result of running a handler: the state reached, the actions emitted so
far (in order), and the exception that escaped, if any.  Mutations and
sends that happened before an exception are kept, as in Python. -/
structure StepOut (σ : Type) where
  st : σ
  evs : List Ev
  err : Option PyErr
deriving DecidableEq, Repr

/-- Sequencing: run `f` only when no exception has escaped yet. -/
def StepOut.andThen {σ : Type} (a : StepOut σ) (f : σ → StepOut σ) : StepOut σ :=
  match a.err with
  | some _ => a
  | none =>
    let b := f a.st
    ⟨b.st, a.evs ++ b.evs, b.err⟩

/-- A Python `set` iterates in an unspecified but fixed order; we render it
as the lexicographically sorted element list.  The order and its
total/transitive/antisymmetric facts are built from scratch so that every
construction reduces inside the kernel (`Finset.sort` does not).  -/
def charsLe : List Char → List Char → Bool
  | [], _ => true
  | _ :: _, [] => false
  | a :: as, b :: bs =>
    if a.toNat < b.toNat then true
    else if b.toNat < a.toNat then false
    else charsLe as bs

def strLeR (a b : String) : Prop := charsLe a.data b.data = true

instance : DecidableRel strLeR := fun a b =>
  inferInstanceAs (Decidable (charsLe a.data b.data = true))

theorem charsLe_total (a : List Char) : ∀ b, charsLe a b = true ∨ charsLe b a = true := by
  induction a with
  | nil => intro b; left; rfl
  | cons x as ih =>
    intro b
    cases b with
    | nil => right; rfl
    | cons y bs =>
      simp only [charsLe]
      rcases Nat.lt_trichotomy x.toNat y.toNat with h | h | h
      · left; simp [h]
      · have h1 : ¬x.toNat < y.toNat := by omega
        have h2 : ¬y.toNat < x.toNat := by omega
        rcases ih bs with hc | hc
        · left; simp [h1, h2, hc]
        · right; simp [h1, h2, hc]
      · right; simp [h]

theorem charsLe_trans (a : List Char) : ∀ b c, charsLe a b = true → charsLe b c = true →
    charsLe a c = true := by
  induction a with
  | nil => intro b c _ _; rfl
  | cons x as ih =>
    intro b c hab hbc
    cases b with
    | nil => simp [charsLe] at hab
    | cons y bs =>
      cases c with
      | nil => simp [charsLe] at hbc
      | cons z cs =>
        simp only [charsLe] at hab hbc ⊢
        rcases Nat.lt_trichotomy x.toNat y.toNat with h1 | h1 | h1
        · rcases Nat.lt_trichotomy y.toNat z.toNat with h2 | h2 | h2
          · simp [show x.toNat < z.toNat by omega]
          · simp [show x.toNat < z.toNat by omega]
          · simp [show ¬y.toNat < z.toNat by omega, show z.toNat < y.toNat by omega] at hbc
        · rcases Nat.lt_trichotomy y.toNat z.toNat with h2 | h2 | h2
          · simp [show x.toNat < z.toNat by omega]
          · simp only [show ¬x.toNat < y.toNat by omega, show ¬y.toNat < x.toNat by omega,
              if_false, if_true] at hab
            simp only [show ¬y.toNat < z.toNat by omega, show ¬z.toNat < y.toNat by omega,
              if_false, if_true] at hbc
            simp only [show ¬x.toNat < z.toNat by omega, show ¬z.toNat < x.toNat by omega,
              if_false, if_true]
            exact ih bs cs hab hbc
          · simp [show ¬y.toNat < z.toNat by omega, show z.toNat < y.toNat by omega] at hbc
        · simp [show ¬x.toNat < y.toNat by omega, show y.toNat < x.toNat by omega] at hab

theorem charsLe_antisymm (a : List Char) : ∀ b, charsLe a b = true → charsLe b a = true →
    a = b := by
  induction a with
  | nil =>
    intro b _ hba
    cases b with
    | nil => rfl
    | cons y bs => simp [charsLe] at hba
  | cons x as ih =>
    intro b hab hba
    cases b with
    | nil => simp [charsLe] at hab
    | cons y bs =>
      simp only [charsLe] at hab hba
      rcases Nat.lt_trichotomy x.toNat y.toNat with h1 | h1 | h1
      · simp [show ¬y.toNat < x.toNat by omega, show x.toNat < y.toNat by omega] at hba
      · simp only [show ¬x.toNat < y.toNat by omega, show ¬y.toNat < x.toNat by omega,
          if_false, if_true] at hab hba
        have hxy : x = y := Char.ext (by
          have h2 := h1
          simp only [Char.toNat] at h2
          exact UInt32.toNat.inj h2)
        rw [hxy, ih bs hab hba]
      · simp [show ¬x.toNat < y.toNat by omega, show y.toNat < x.toNat by omega] at hab

instance : IsTotal String strLeR := ⟨fun a b => charsLe_total a.data b.data⟩
instance : IsTrans String strLeR := ⟨fun a b c => charsLe_trans a.data b.data c.data⟩
instance : IsAntisymm String strLeR :=
  ⟨fun a b h1 h2 => by
    have h3 := charsLe_antisymm a.data b.data h1 h2
    cases a
    cases b
    exact congrArg String.mk h3⟩


/-- The fixed iteration order of a Python set of strings. -/
def finsetAsList (s : Finset String) : List String :=
  Quotient.liftOn s.val (fun l => List.insertionSort strLeR l)
    (fun a b hab =>
      List.eq_of_perm_of_sorted
        (((List.perm_insertionSort _ a).trans hab).trans
          (List.perm_insertionSort _ b).symm)
        (List.sorted_insertionSort _ a) (List.sorted_insertionSort _ b))

/-- `",".join(...)` over a Python set of room names. -/
def joinComma (s : Finset String) : String :=
  (joinChars ',' (finsetAsList s)).asString

/-! ## The base IRC chatbot (src/jayk/chatbot.py, `Chatbot` + `IRCChatbot`)

State fields: `nicks`/`nickCursor` render `self.__nick_rotation =
iter(self.connect_info.nicks)` (the cursor counts consumed candidates);
`nick` is `self.__nick` (initially `None`); `ready` is `self.__ready`;
`stateModules`/`stateRooms` are `self.state` (a `ChatbotState`),
`desiredModules`/`desiredRooms` are `self.desired_state`; `modules` is the
`Sequence[ChatbotModule]` the constructor receives (each entry reduced to
its `rooms` set — handler bodies are external collaborators). -/

structure BaseMod where
  rooms : Finset String
deriving DecidableEq

structure IrcBot where
  nicks : List String
  serverPass : Option String
  userName : String
  modules : List BaseMod
  nickCursor : Nat
  nick : Option String
  ready : Bool
  stateModules : Finset String
  stateRooms : Finset String
  desiredModules : Finset String
  desiredRooms : Finset String
deriving DecidableEq

/-- `Chatbot.on_message` (src/jayk/chatbot.py:153-156): call `on_message`
on every module whose room set contains the room. -/
def notifyOnMessage (mods : List BaseMod) (room : String) (sender : IrcUser)
    (text : String) : List Ev :=
  (mods.enum.filter (fun p => room ∈ p.2.rooms)).map
    (fun p => Ev.modOnMessage p.1 room sender text)

/-- `Chatbot.on_join_room` (src/jayk/chatbot.py:158-161). -/
def notifyOnJoin (mods : List BaseMod) (room : String) (who : Option WhoArg) :
    List Ev :=
  (mods.enum.filter (fun p => room ∈ p.2.rooms)).map
    (fun p => Ev.modOnJoin p.1 room who)

/-- `Chatbot.on_leave_room` (src/jayk/chatbot.py:163-166). -/
def notifyOnLeave (mods : List BaseMod) (room : String) (who : Option WhoArg) :
    List Ev :=
  (mods.enum.filter (fun p => room ∈ p.2.rooms)).map
    (fun p => Ev.modOnLeave p.1 room who)

/-- `IRCChatbot.match_desired_state` (src/jayk/chatbot.py:210-237): a no-op
before readiness; modules out of sync only logs warnings (the TODO branch);
rooms out of sync sends one batched `PART` for `state − desired` and one
batched `JOIN` for `desired − state`, each only when non-empty. -/
def baseMatchDesiredState (st : IrcBot) : StepOut IrcBot :=
  if !st.ready then ⟨st, [], none⟩
  else
    let modEvs :=
      if st.stateModules ≠ st.desiredModules then [Ev.warnModulesOutOfSync] else []
    let roomEvs :=
      if st.stateRooms ≠ st.desiredRooms then
        let toLeave := st.stateRooms \ st.desiredRooms
        let toJoin := st.desiredRooms \ st.stateRooms
        (if toLeave ≠ ∅ then [Ev.send ⟨none, "PART", [joinComma toLeave]⟩] else []) ++
        (if toJoin ≠ ∅ then [Ev.send ⟨none, "JOIN", [joinComma toJoin]⟩] else [])
      else []
    ⟨st, modEvs ++ roomEvs, none⟩

/-- `IRCChatbot.__try_next_nick` (src/jayk/chatbot.py:323-328): take the
next candidate and send `NICK`; an exhausted iterator raises
`NoMoreNicksError` (src/jayk/common.py:36-49). -/
def tryNextNick (st : IrcBot) : StepOut IrcBot :=
  match st.nicks[st.nickCursor]? with
  | some n =>
    ⟨{ st with nickCursor := st.nickCursor + 1, nick := some n },
     [Ev.send ⟨none, "NICK", [n]⟩], none⟩
  | none => ⟨st, [], some .noMoreNicks⟩

/-- `IRCChatbot.on_connect` (src/jayk/chatbot.py:239-243): optional `PASS`,
then `USER <user> 0 * Chatbot`, then the first nick attempt. -/
def baseOnConnect (st : IrcBot) : StepOut IrcBot :=
  let passEvs :=
    match st.serverPass with
    | some p => if p ≠ "" then [Ev.send ⟨none, "PASS", [p]⟩] else []
    | none => []
  let r := tryNextNick st
  ⟨r.st, passEvs ++ [Ev.send ⟨none, "USER", [st.userName, "0", "*", "Chatbot"]⟩] ++ r.evs,
   r.err⟩

/-- `IRCChatbot._handle_irc_message` (src/jayk/chatbot.py:248-296) on a
plain `IRCChatbot` (all method lookups resolve to the base classes).
Notable faithful details: a `PING` with no parameters raises `NameError`
(the log call references `msg` before its assignment); `JOIN`/`PART` read
`message.user.nick` and raise `AttributeError` when the prefix did not
parse; missing parameters raise `IndexError`; `PRIVMSG` returns before
touching `params` when the sender is unparseable or is the bot itself. -/
def baseHandle (st : IrcBot) (m : Msg) : StepOut IrcBot :=
  if m.command = "RPL_MYINFO" then
    baseMatchDesiredState { st with ready := true }
  else if NICK_ERRORS.contains m.command then
    tryNextNick st
  else if m.command = "PING" then
    match m.params with
    | [] => ⟨st, [], some .nameError⟩
    | p :: _ =>
      match p.data with
      | [] => ⟨st, [], some .indexError⟩
      | c :: _ =>
        let tok := if c = ':' then p else (':' :: p.data).asString
        ⟨st, [Ev.send ⟨none, "PONG", [tok]⟩], none⟩
  else if m.command = "JOIN" then
    match m.user with
    | none => ⟨st, [], some .attributeError⟩
    | some u =>
      let who : Option WhoArg :=
        if st.nick = some u.nick then none else some (.user u)
      match m.params with
      | [] => ⟨st, [], some .indexError⟩
      | room :: _ =>
        (⟨st, notifyOnJoin st.modules room who, none⟩ : StepOut IrcBot).andThen
          baseMatchDesiredState
  else if m.command = "KICK" then
    match m.params with
    | room :: whoS :: _ =>
      let who : Option WhoArg :=
        if st.nick = some whoS then none else some (.nickStr whoS)
      (⟨st, notifyOnLeave st.modules room who, none⟩ : StepOut IrcBot).andThen
        baseMatchDesiredState
    | _ => ⟨st, [], some .indexError⟩
  else if m.command = "PART" then
    match m.params with
    | [] => ⟨st, [], some .indexError⟩
    | room :: _ =>
      match m.user with
      | none => ⟨st, [], some .attributeError⟩
      | some u =>
        let who : Option WhoArg :=
          if st.nick = some u.nick then none else some (.nickStr u.nick)
        (⟨st, notifyOnLeave st.modules room who, none⟩ : StepOut IrcBot).andThen
          baseMatchDesiredState
  else if m.command = "PRIVMSG" then
    match m.user with
    | none => ⟨st, [], none⟩
    | some u =>
      if st.nick = some u.nick then ⟨st, [], none⟩
      else
        match m.params with
        | room :: text :: _ => ⟨st, notifyOnMessage st.modules room u text, none⟩
        | _ => ⟨st, [], some .indexError⟩
  else ⟨st, [], none⟩

/-- The receive loop of `IRCChatbot.data_received`
(src/jayk/chatbot.py:307-321) after splitting: for each line, parse; a
`ValueError` from the parser is caught and logged, anything the handler
raises escapes and aborts the rest of the batch. -/
def processLines (st : IrcBot) : List String → StepOut IrcBot
  | [] => ⟨st, [], none⟩
  | line :: rest =>
    match parseMessage line with
    | none =>
      let r := processLines st rest
      ⟨r.st, Ev.logError line :: r.evs, r.err⟩
    | some m => (baseHandle st m).andThen (fun s => processLines s rest)

/-- `IRCChatbot.data_received`: split the batch on CRLF, drop empty lines
(`filter(len, lines)`), then run the receive loop. -/
def dataReceived (st : IrcBot) (data : String) : StepOut IrcBot :=
  processLines st ((pySplitCRLF data).filter (fun l => l ≠ ""))

/-! ## The CLI chatbot (src/jayk/cli/module.py, `JaykChatbot` +
`JaykIRCChatbot`)

`JaykIRCChatbot(JaykChatbot, IRCChatbot)` resolves `match_desired_state` to
`JaykChatbot`'s (modules then rooms), `match_desired_rooms` to its own
override, and inherits `Chatbot.on_message`/`on_join_room`/`on_leave_room`
dispatch loops — whose `for mod in self.modules` iterates the *keys* of the
CLI registry dict, so any non-empty registry raises `AttributeError`
("'str' object has no attribute 'rooms'") there.

`JaykIRCChatbot.match_desired_rooms` consults `self.ready`, which no class
in the sources defines (`IRCChatbot` only has the private `__ready` flag
and never calls `on_ready`).  Modelled from the spec: `ready` is the
readiness flag, true once the registration-complete reply was seen, and
room reconciliation is deferred (a no-op) while it is false. -/

/-- One entry of the `modules` section of the configuration, after
`update_config` filtered it down to enabled modules
(src/jayk/cli/module.py:87-92).  The `path` key only feeds the excluded
on-disk module loader and is omitted; `rooms` and `params` are the
configured values. -/
structure ModConfig where
  enabled : Bool
  rooms : Finset String
  params : List (String × String)
deriving DecidableEq

/-- A loaded module instance as the reconciliation engine sees it:
`instId` is the identity of the Python object (fresh per construction),
`rooms` is its `self.rooms` (set by the constructor and by
`update_config`).  Handler bodies are external collaborators. -/
structure ModInst where
  instId : Nat
  rooms : Finset String
deriving DecidableEq

/-- Python dict assignment `d[k] = v`: replace in place, else append. -/
def dictInsert {α : Type} : List (String × α) → String → α → List (String × α)
  | [], n, v => [(n, v)]
  | (k, w) :: t, n, v =>
    if k = n then (k, v) :: t else (k, w) :: dictInsert t n v

/-- Python dict `d.pop(k)` (the removal part). -/
def dictErase {α : Type} (reg : List (String × α)) (n : String) : List (String × α) :=
  reg.eraseP (fun p => p.1 = n)

/-- The key set `set(d.keys())`. -/
def dictKeys {α : Type} (reg : List (String × α)) : Finset String :=
  (reg.map Prod.fst).toFinset

/-- State of a `JaykIRCChatbot`.  `registry` is `self.modules` (the dict
from module name to instance), `nextId` feeds fresh instance identities,
`configMods` is `self.config.modules` (enabled modules only, as
`update_config` stores it), `stateModules`/`stateRooms` are `self.state`
(a `JaykState`), `desiredRooms` is `self.desired_state.rooms`. -/
structure JaykBot where
  nicks : List String
  nickCursor : Nat
  nick : Option String
  ready : Bool
  registry : List (String × ModInst)
  nextId : Nat
  configMods : List (String × ModConfig)
  stateModules : Finset String
  stateRooms : Finset String
  desiredRooms : Finset String
deriving DecidableEq

/-- `JaykChatbot.unload_module` (src/jayk/cli/module.py:154-163):
`self.modules.pop(name)` (a `KeyError` if absent) then `mod.on_unload()`. -/
def jaykUnloadModule (st : JaykBot) (name : String) : StepOut JaykBot :=
  match List.lookup name st.registry with
  | none => ⟨st, [], some .keyError⟩
  | some _ =>
    ⟨{ st with registry := dictErase st.registry name }, [Ev.onUnload name], none⟩

/-- `JaykChatbot.load_module` (src/jayk/cli/module.py:136-152): skip a
disabled config; otherwise construct a fresh instance with the configured
rooms (the import itself is the excluded on-disk loader) and store it in
the registry. -/
def jaykLoadModule (st : JaykBot) (name : String) (cfg : ModConfig) : StepOut JaykBot :=
  if !cfg.enabled then ⟨st, [], none⟩
  else
    let inst : ModInst := ⟨st.nextId, cfg.rooms⟩
    ⟨{ st with registry := dictInsert st.registry name inst, nextId := st.nextId + 1 },
     [Ev.loadInstance name st.nextId], none⟩

/-- `JaykChatbot.update_module` (src/jayk/cli/module.py:165-174) followed
by `JaykModule.update_config` (src/jayk/cli/module.py:326-338): look the
instance up (`KeyError` if absent), set its `rooms` from the configuration,
and call `on_update_params` with the configured params.  (The `else`
branches of `update_config` cover configs lacking the `rooms`/`params`
keys; `ModConfig` always carries both.) -/
def jaykUpdateModule (st : JaykBot) (name : String) (cfg : ModConfig) : StepOut JaykBot :=
  match List.lookup name st.registry with
  | none => ⟨st, [], some .keyError⟩
  | some inst =>
    let inst' : ModInst := ⟨inst.instId, cfg.rooms⟩
    ⟨{ st with registry := dictInsert st.registry name inst' },
     [Ev.updateConfig name, Ev.onUpdateParams name cfg.params], none⟩

/-- Run one reconciliation action per module name, stopping at the first
escaped exception (the Python `for` loops). -/
def foldSteps {σ : Type} (f : σ → String → StepOut σ) (names : List String)
    (st : σ) : StepOut σ :=
  match names with
  | [] => ⟨st, [], none⟩
  | n :: rest => (f st n).andThen (foldSteps f rest)

/-- `for add in to_add: self.load_module(add, self.config.modules[add])`:
the configuration lookup followed by `load_module`. -/
def jaykLoadStep (s : JaykBot) (n : String) : StepOut JaykBot :=
  match List.lookup n s.configMods with
  | some cfg => jaykLoadModule s n cfg
  | none => ⟨s, [], some .keyError⟩

/-- `for update in to_update: self.update_module(update,
self.config.modules[update])`. -/
def jaykUpdateStep (s : JaykBot) (n : String) : StepOut JaykBot :=
  match List.lookup n s.configMods with
  | some cfg => jaykUpdateModule s n cfg
  | none => ⟨s, [], some .keyError⟩

/-- `JaykChatbot.match_desired_modules` (src/jayk/cli/module.py:109-128):
`to_add = new − old`, `to_remove = old − new`, `to_update = new ∩ old`
with `old = state.modules` and `new = config.modules.keys()`; unload all of
`to_remove`, then load all of `to_add`, then update all of `to_update`,
then set `state.modules = set(self.modules.keys())`.  Python iterates each
set in unspecified order; rendered as the sorted order. -/
def jaykMatchDesiredModules (st : JaykBot) : StepOut JaykBot :=
  let newMods := dictKeys st.configMods
  let toRemove := finsetAsList (st.stateModules \ newMods)
  let toAdd := finsetAsList (newMods \ st.stateModules)
  let toUpdate := finsetAsList (newMods ∩ st.stateModules)
  ((((foldSteps jaykUnloadModule toRemove st).andThen
      (foldSteps jaykLoadStep toAdd)).andThen
      (foldSteps jaykUpdateStep toUpdate)).andThen
      (fun s => ⟨{ s with stateModules := dictKeys s.registry }, [], none⟩))

/-- `JaykIRCChatbot.match_desired_rooms` (src/jayk/cli/module.py:212-240):
a no-op before readiness; otherwise one batched `PART` for
`state.rooms − desired.rooms` and one batched `JOIN` for
`desired.rooms − state.rooms`, each sent only when non-empty. -/
def jaykMatchDesiredRooms (st : JaykBot) : StepOut JaykBot :=
  if !st.ready then ⟨st, [], none⟩
  else
    let toLeave := st.stateRooms \ st.desiredRooms
    let toJoin := st.desiredRooms \ st.stateRooms
    ⟨st,
     (if toLeave ≠ ∅ then [Ev.send ⟨none, "PART", [joinComma toLeave]⟩] else []) ++
     (if toJoin ≠ ∅ then [Ev.send ⟨none, "JOIN", [joinComma toJoin]⟩] else []),
     none⟩

/-- `JaykChatbot.match_desired_state` (src/jayk/cli/module.py:99-107):
modules first, then rooms. -/
def jaykMatchDesiredState (st : JaykBot) : StepOut JaykBot :=
  (jaykMatchDesiredModules st).andThen jaykMatchDesiredRooms

/-- The inherited `Chatbot.on_message`/`on_join_room`/`on_leave_room`
dispatch loop on the CLI bot: `for mod in self.modules` iterates the dict's
*keys*, so the first key immediately raises `AttributeError` on
`mod.rooms`; an empty registry iterates zero times and succeeds. -/
def jaykNotifyModules (st : JaykBot) : StepOut JaykBot :=
  if st.registry = [] then ⟨st, [], none⟩ else ⟨st, [], some .attributeError⟩

/-- `JaykIRCChatbot.on_join_room` (src/jayk/cli/module.py:262-273): a
self-join adds the room to `state.rooms`, then the inherited dispatch loop
runs. -/
def jaykOnJoinRoom (st : JaykBot) (room : String) (who : Option WhoArg) : StepOut JaykBot :=
  let st' :=
    match who with
    | none => { st with stateRooms := st.stateRooms ∪ {room} }
    | some _ => st
  jaykNotifyModules st'

/-- `JaykIRCChatbot.on_leave_room` (src/jayk/cli/module.py:275-286): a
self-leave removes the room from `state.rooms`, then the inherited dispatch
loop runs. -/
def jaykOnLeaveRoom (st : JaykBot) (room : String) (who : Option WhoArg) : StepOut JaykBot :=
  let st' :=
    match who with
    | none => { st with stateRooms := st.stateRooms \ {room} }
    | some _ => st
  jaykNotifyModules st'

/-- `IRCChatbot.__try_next_nick` as inherited by the CLI bot. -/
def jaykTryNextNick (st : JaykBot) : StepOut JaykBot :=
  match st.nicks[st.nickCursor]? with
  | some n =>
    ⟨{ st with nickCursor := st.nickCursor + 1, nick := some n },
     [Ev.send ⟨none, "NICK", [n]⟩], none⟩
  | none => ⟨st, [], some .noMoreNicks⟩

/-- `IRCChatbot._handle_irc_message` (src/jayk/chatbot.py:248-296) as run
on a `JaykIRCChatbot`: identical control flow to `baseHandle`, but
`self.match_desired_state`, `self.on_join_room`, `self.on_leave_room` and
`self.on_message` resolve to the CLI overrides. -/
def jaykHandleInner (st : JaykBot) (m : Msg) : StepOut JaykBot :=
  if m.command = "RPL_MYINFO" then
    jaykMatchDesiredState { st with ready := true }
  else if NICK_ERRORS.contains m.command then
    jaykTryNextNick st
  else if m.command = "PING" then
    match m.params with
    | [] => ⟨st, [], some .nameError⟩
    | p :: _ =>
      match p.data with
      | [] => ⟨st, [], some .indexError⟩
      | c :: _ =>
        let tok := if c = ':' then p else (':' :: p.data).asString
        ⟨st, [Ev.send ⟨none, "PONG", [tok]⟩], none⟩
  else if m.command = "JOIN" then
    match m.user with
    | none => ⟨st, [], some .attributeError⟩
    | some u =>
      let who : Option WhoArg :=
        if st.nick = some u.nick then none else some (.user u)
      match m.params with
      | [] => ⟨st, [], some .indexError⟩
      | room :: _ => (jaykOnJoinRoom st room who).andThen jaykMatchDesiredState
  else if m.command = "KICK" then
    match m.params with
    | room :: whoS :: _ =>
      let who : Option WhoArg :=
        if st.nick = some whoS then none else some (.nickStr whoS)
      (jaykOnLeaveRoom st room who).andThen jaykMatchDesiredState
    | _ => ⟨st, [], some .indexError⟩
  else if m.command = "PART" then
    match m.params with
    | [] => ⟨st, [], some .indexError⟩
    | room :: _ =>
      match m.user with
      | none => ⟨st, [], some .attributeError⟩
      | some u =>
        let who : Option WhoArg :=
          if st.nick = some u.nick then none else some (.nickStr u.nick)
        (jaykOnLeaveRoom st room who).andThen jaykMatchDesiredState
  else if m.command = "PRIVMSG" then
    match m.user with
    | none => ⟨st, [], none⟩
    | some u =>
      if st.nick = some u.nick then ⟨st, [], none⟩
      else
        match m.params with
        | _room :: _text :: _ => jaykNotifyModules st
        | _ => ⟨st, [], some .indexError⟩
  else ⟨st, [], none⟩

/-- `JaykIRCChatbot._handle_irc_message` (src/jayk/cli/module.py:250-260):
run the inherited handler, then re-run `match_desired_rooms` when the
upper-cased command is `KICK`, `JOIN`, or `PART`. -/
def jaykHandle (st : JaykBot) (m : Msg) : StepOut JaykBot :=
  (jaykHandleInner st m).andThen (fun s =>
    if ["KICK", "JOIN", "PART"].contains (strUpperChars m.command.data).asString then
      jaykMatchDesiredRooms s
    else ⟨s, [], none⟩)

/-! ## Event counting helpers -/

/-- Is the event a batched `JOIN` send? -/
def isJoinSend : Ev → Bool
  | .send m => m.command = "JOIN"
  | _ => false

/-- Is the event a batched `PART` send? -/
def isPartSend : Ev → Bool
  | .send m => m.command = "PART"
  | _ => false

/-- Is the event a module-instance construction? -/
def isLoad : Ev → Bool
  | .loadInstance _ _ => true
  | _ => false

/-- Is the event an `on_unload` invocation? -/
def isUnload : Ev → Bool
  | .onUnload _ => true
  | _ => false

/-- Is the event a `NICK` send, and with which candidate? -/
def nickSendOf : Ev → Option String
  | .send m =>
    if m.command = "NICK" then
      match m.params with
      | [n] => some n
      | _ => none
    else none
  | _ => none

/-! ## Concrete scenarios used by counterexamples and witnesses -/

/-- The C1 counterexample message: a trailing parameter with a space and no
CR/LF. -/
def mTrailing : Msg := ⟨none, "PRIVMSG", ["#r", "hello world"]⟩

/-- Fold of separate `data_received` callbacks, one inbound message each:
an exception escaping one callback is logged by the event loop and does not
stop later callbacks, so the fold continues from the reached state
(errors are per-callback; `runRejections` keeps states and actions). -/
def runRejections (st : IrcBot) : List Msg → IrcBot × List Ev
  | [] => (st, [])
  | m :: rest =>
    let r := baseHandle st m
    let w := runRejections r.st rest
    (w.1, r.evs ++ w.2)

/-- The load actions `match_desired_modules` performs for `names`, with
instance identities counting up from `start`. -/
def expectedLoads : List String → Nat → List Ev
  | [], _ => []
  | n :: rest, start => Ev.loadInstance n start :: expectedLoads rest (start + 1)

/-- The update actions `match_desired_modules` performs for `names` under
configuration `cfgs`. -/
def expectedUpdates (cfgs : List (String × ModConfig)) (names : List String) :
    List Ev :=
  names.flatMap (fun n =>
    match List.lookup n cfgs with
    | some c => [Ev.updateConfig n, Ev.onUpdateParams n c.params]
    | none => [])

/-- Two enabled modules `a`, `b`, both on room `#x` (the C2 scenario). -/
def cfgAB : List (String × ModConfig) :=
  [("a", ⟨true, {"#x"}, []⟩), ("b", ⟨true, {"#x"}, []⟩)]

/-- Loaded instances matching `cfgAB`. -/
def regAB : List (String × ModInst) :=
  [("a", ⟨0, {"#x"}⟩), ("b", ⟨1, {"#x"}⟩)]

/-- A configuration enabling modules `c` (new) and `a` (kept), dropping
`b`. -/
def cfgC6 : List (String × ModConfig) :=
  [("c", ⟨true, {"#z"}, [("k", "v")]⟩), ("a", ⟨true, {"#x"}, [("k", "v")]⟩)]

/-- A ready CLI bot with `a`, `b` loaded but `c`, `a` desired. -/
def stMixC6 : JaykBot :=
  ⟨["bot"], 1, some "bot", true, regAB, 2, cfgC6, {"a", "b"}, {"#x"}, {"#x"}⟩

/-- A ready CLI bot whose actual state equals its desired state
(`modules {a,b}`, `rooms {#x}`). -/
def stEqC2 : JaykBot :=
  ⟨["bot"], 1, some "bot", true, regAB, 2, cfgAB, {"a", "b"}, {"#x"}, {"#x"}⟩

/-- `stEqC2` with the desired room set grown to `{#x, #y}`. -/
def stGrowC2 : JaykBot :=
  ⟨["bot"], 1, some "bot", true, regAB, 2, cfgAB, {"a", "b"}, {"#x"}, {"#x", "#y"}⟩

/-- A ready CLI bot with no modules, sitting in desired room `#x`. -/
def stKickC3 : JaykBot :=
  ⟨["bot"], 1, some "bot", true, [], 0, [], ∅, {"#x"}, {"#x"}⟩

/-- A `KICK` naming the bot's current nickname (a self-kick) for `#x`. -/
def kickMsgC3 : Msg := ⟨some "ops!o@h", "KICK", ["#x", "bot"]⟩

/-- A freshly connected base bot with nick candidates `["bot", "bot_"]`. -/
def stNickC5 : IrcBot :=
  ⟨["bot", "bot_"], none, "u", [], 0, none, false, ∅, ∅, ∅, ∅⟩

/-- A nickname-rejection reply. -/
def rejMsgC5 : Msg := ⟨none, "ERR_NICKNAMEINUSE", ["*", "bot"]⟩

/-- A ready base bot with no modules and empty state (C8/C9 scenario). -/
def stReadyBase : IrcBot :=
  ⟨["bot"], none, "u", [], 1, some "bot", true, ∅, ∅, ∅, ∅⟩

/-- Does `parse(format(m))` reproduce command and parameter list (the
spec's message equivalence)?  `Message` has no separate trailing flag: the
trailing parameter is the last entry of `params`, so preserving `params`
is exactly preserving the parameters and their trailing-ness. -/
def roundTripOk (m : Msg) : Bool :=
  match parseMessage (Msg.format m) with
  | some m2 => m2.command == m.command && m2.params == m.params
  | none => false

/-! ## Helper lemmas -/

theorem asString_data (s : String) : s.data.asString = s := rfl

theorem data_asString (l : List Char) : (List.asString l).data = l := rfl

theorem spanP_append (p : Char → Bool) (l r : List Char)
    (hl : ∀ c ∈ l, p c = true)
    (hr : ∀ c, r.head? = some c → p c = false) :
    spanP p (l ++ r) = (l, r) := by
  unfold spanP
  induction l with
  | nil =>
    simp only [List.nil_append]
    cases r with
    | nil => simp
    | cons c cs =>
      have hc := hr c rfl
      simp [List.takeWhile_cons, List.dropWhile_cons, hc]
  | cons c cs ih =>
    have hc : p c = true := hl c (by simp)
    have ihh := ih (fun d hd => hl d (by simp [hd]))
    simp only [List.cons_append, List.takeWhile_cons, List.dropWhile_cons, hc]
    simp only [Prod.mk.injEq] at ihh ⊢
    exact ⟨by simp [ihh.1], by simp [ihh.2]⟩

theorem takePfx_some (p rest : List Char) (hne : p ≠ [])
    (hsp : ∀ c ∈ p, ¬c = ' ') :
    takePfx (':' :: (p ++ ' ' :: rest)) = some (some p, rest) := by
  have h := spanP_append (fun c => decide (c ≠ ' ')) p (' ' :: rest)
    (fun c hc => by simpa using hsp c hc) (fun c hc => by
      simp only [List.head?_cons, Option.some.injEq] at hc
      simp [← hc])
  simp only [ne_eq, decide_not] at h
  simp [takePfx, h, hne]

theorem takePfx_word (c : Char) (cs : List Char) (hc : ¬c = ':') :
    takePfx (c :: cs) = some (none, c :: cs) := by
  unfold takePfx
  split
  · rename_i heq
    rw [List.cons.injEq] at heq
    exact absurd heq.1 hc
  · rfl

theorem takeCommand_letters (cmd rest : List Char) (hne : cmd ≠ [])
    (hl : ∀ c ∈ cmd, isAsciiLetter c = true)
    (hr : ∀ c, rest.head? = some c → isAsciiLetter c = false) :
    takeCommand (cmd ++ rest) = some (cmd, rest) := by
  cases cmd with
  | nil => exact absurd rfl hne
  | cons c cs =>
    have hc : isAsciiLetter c = true := hl c (by simp)
    have h := spanP_append isAsciiLetter (c :: cs) rest hl hr
    simp only [List.cons_append] at h ⊢
    simp only [takeCommand, hc, if_true]
    rw [h]

theorem takeParamsF_fuel (f1 : Nat) : ∀ (f2 : Nat) (cs : List Char),
    cs.length ≤ f1 → cs.length ≤ f2 → takeParamsF f1 cs = takeParamsF f2 cs := by
  induction f1 with
  | zero =>
    intro f2 cs h1 _
    rw [List.length_eq_zero.mp (Nat.le_zero.mp h1)]
    cases f2 <;> rfl
  | succ k ih =>
    intro f2 cs h1 h2
    cases cs with
    | nil => cases f2 <;> rfl
    | cons c cs2 =>
      cases f2 with
      | zero => simp at h2
      | succ m =>
        simp only [takeParamsF]
        have hd : (spanP paramChar cs2).2.length ≤ cs2.length :=
          (List.dropWhile_sublist paramChar).length_le
        simp only [List.length_cons] at h1 h2
        rw [ih m (spanP paramChar cs2).2 (by omega) (by omega)]

theorem takeParams_tokens (ps : List (List Char))
    (h : ∀ t ∈ ps, t ≠ [] ∧ ∀ c ∈ t, paramChar c = true) :
    takeParams (ps.flatMap (fun t => ' ' :: t)) = (ps, []) := by
  induction ps with
  | nil => rfl
  | cons t ts ih =>
    have ht := h t (by simp)
    have hspan := spanP_append paramChar t (ts.flatMap (fun t => ' ' :: t))
      ht.2 (fun c hc => by
        cases ts with
        | nil => simp at hc
        | cons a as =>
          simp only [List.flatMap_cons, List.cons_append, List.head?_cons,
            Option.some.injEq] at hc
          simp [← hc, paramChar])
    have ihh := ih (fun u hu => h u (by simp [hu]))
    have hstep : ∀ (fuel : Nat) (cs2 : List Char),
        takeParamsF (fuel + 1) (' ' :: cs2) =
          (if (spanP paramChar cs2).1 = [] then ([], ' ' :: cs2)
           else ((spanP paramChar cs2).1 :: (takeParamsF fuel (spanP paramChar cs2).2).1,
                 (takeParamsF fuel (spanP paramChar cs2).2).2)) :=
      fun fuel cs2 => rfl
    rw [takeParams] at ihh ⊢
    simp only [List.flatMap_cons]
    show takeParamsF ((t ++ ts.flatMap fun u => ' ' :: u).length + 1)
      (' ' :: (t ++ ts.flatMap fun u => ' ' :: u)) = (t :: ts, [])
    rw [hstep, hspan]
    simp only [ht.1, if_false]
    rw [takeParamsF_fuel (t ++ ts.flatMap fun u => ' ' :: u).length
      (ts.flatMap fun u => ' ' :: u).length (ts.flatMap fun u => ' ' :: u)
      (by simp) (Nat.le_refl _), ihh]

theorem isAsciiLetter_ne_colon (c : Char) (h : isAsciiLetter c = true) : ¬c = ':' := by
  intro heq
  subst heq
  exact absurd h (by decide)

theorem isAsciiLetter_not_digit (c : Char) (h : isAsciiLetter c = true) :
    isAsciiDigit c = false := by
  simp only [isAsciiLetter, Bool.or_eq_true, Bool.and_eq_true, decide_eq_true_eq] at h
  simp only [isAsciiDigit, Bool.and_eq_false_iff, decide_eq_false_iff_not]
  omega

theorem string_ne_empty_of_data {p : String} (h : p.data ≠ []) : p ≠ "" := by
  intro heq
  apply h
  rw [heq]

theorem joinChars_flatMap (ps : List String) (hne : ps ≠ []) :
    ' ' :: joinChars ' ' ps = ps.flatMap (fun t => ' ' :: t.data) := by
  induction ps with
  | nil => exact absurd rfl hne
  | cons t ts ih =>
    cases ts with
    | nil => simp [joinChars]
    | cons u us =>
      have ihh := ih (by simp)
      simp only [joinChars]
      rw [List.flatMap_cons, ← ihh]
      simp
/-- C1 (amended): the round-trip that actually holds.  `Message.__str__`
never emits the `:`-introducer for a trailing parameter, so round-tripping
requires every parameter to be a nonempty token free of spaces, colons and
CR/LF; the command must be a nonempty, upper-case ASCII-letter word (output
upper-cases, and the parser maps numeric commands through the code table);
the prefix must be absent or a nonempty space-free token.  Under those
conditions `Message.parse(str(m))` returns `m` itself. -/
theorem c1_roundtrip_amended (m : Msg)
    (hcmdne : m.command.data ≠ [])
    (hcmdl : ∀ c ∈ m.command.data, isAsciiLetter c = true)
    (hcmdu : strUpperChars m.command.data = m.command.data)
    (hpfx : m.pfx = none ∨ ∃ p, m.pfx = some p ∧ p.data ≠ [] ∧ ∀ c ∈ p.data, ¬c = ' ')
    (hpar : ∀ t ∈ m.params, t.data ≠ [] ∧ ∀ c ∈ t.data, paramChar c = true) :
    parseMessage (Msg.format m) = some m := by
  obtain ⟨pfxO, cmd, params⟩ := m
  simp only at hcmdne hcmdl hcmdu hpar hpfx
  generalize hpp : (if params = [] then [] else ' ' :: joinChars ' ' params) = pPart
  have hparams : takeParams pPart = (params.map String.data, []) := by
    by_cases hps : params = []
    · subst hps
      simp only [if_pos rfl] at hpp
      rw [← hpp]
      rfl
    · rw [← hpp, if_neg hps, joinChars_flatMap params hps]
      have hmap : params.flatMap (fun t => ' ' :: t.data) =
          (params.map String.data).flatMap (fun t => ' ' :: t) := by
        rw [List.flatMap_map]
      rw [hmap, takeParams_tokens]
      intro t ht
      rw [List.mem_map] at ht
      obtain ⟨s, hs, rfl⟩ := ht
      exact hpar s hs
  have hcmdTake : takeCommand (cmd.data ++ pPart) = some (cmd.data, pPart) := by
    refine takeCommand_letters _ _ hcmdne hcmdl ?_
    intro c hc
    by_cases hps : params = []
    · rw [← hpp, if_pos hps] at hc
      simp at hc
    · rw [← hpp, if_neg hps] at hc
      simp only [List.head?_cons, Option.some.injEq] at hc
      subst hc
      decide
  obtain ⟨c, cs, hcc⟩ := List.exists_cons_of_ne_nil hcmdne
  have hletter : isAsciiLetter c = true := hcmdl c (by rw [hcc]; simp)
  have hnotalldig : ∀ hall : ∀ x ∈ cmd.data, isAsciiDigit x = true, False := by
    intro hall
    exact absurd (hall c (by rw [hcc]; simp))
      (by simp [isAsciiLetter_not_digit c hletter])
  have hcompid : (List.asString ∘ String.data) = id := funext fun s => asString_data s
  have hmapParams : (params.map String.data).map List.asString = params := by
    rw [List.map_map, hcompid, List.map_id]
  rcases hpfx with hnone | ⟨p, hsome, hpne, hpsp⟩
  · subst hnone
    have h1 : takePfx (cmd.data ++ pPart) = some (none, cmd.data ++ pPart) := by
      rw [hcc, List.cons_append]
      exact takePfx_word c _ (isAsciiLetter_ne_colon c hletter)
    simp only [Msg.format]
    rw [hcmdu]
    unfold parseMessage
    rw [data_asString]
    rw [hpp]
    simp only [List.nil_append]
    simp [h1, hcmdTake, hparams, hmapParams, takeTrailing, atEol]
    rw [if_neg (fun hand => hnotalldig hand.1), asString_data]
  · subst hsome
    have hpstr : p ≠ "" := string_ne_empty_of_data hpne
    have h1 : takePfx (':' :: (p.data ++ ' ' :: (cmd.data ++ pPart))) =
        some (some p.data, cmd.data ++ pPart) :=
      takePfx_some p.data (cmd.data ++ pPart) hpne hpsp
    simp only [Msg.format]
    rw [hcmdu]
    unfold parseMessage
    rw [data_asString]
    rw [hpp]
    simp only [if_pos hpstr, List.cons_append, List.append_assoc, List.singleton_append]
    simp [h1, hcmdTake, hparams, hmapParams, takeTrailing, atEol, asString_data]
    intro hall
    exact absurd hall hnotalldig

/-- C1 counterexample: the fully constructible message
`Message(None, "PRIVMSG", ["#r", "hello world"])` has a trailing parameter
free of CR/LF, yet `parse(str(m))` does not reproduce its parameters:
`str(m) = "PRIVMSG #r hello world"` (no `:`-introducer is emitted), which
re-parses with params `["#r", "hello", "world"]`.  This falsifies the
claimed `parse(format(m)) == m` round-trip. -/
theorem c1_counterexample :
    (∀ c ∈ ("hello world" : String).data, notCRLF c = true) ∧
    mTrailing.params = ["#r", "hello world"] ∧
    Msg.format mTrailing = "PRIVMSG #r hello world" ∧
    (parseMessage (Msg.format mTrailing)).map Msg.params =
      some ["#r", "hello", "world"] ∧
    roundTripOk mTrailing = false := by
  refine ⟨by decide, rfl, by decide, by decide, by decide⟩

/-- Witness for `c1_roundtrip_amended` at a concrete message. -/
theorem c1_roundtrip_amended_witness :
    parseMessage (Msg.format ⟨some "a!b@c", "PRIVMSG", ["#room", "hi"]⟩) =
      some ⟨some "a!b@c", "PRIVMSG", ["#room", "hi"]⟩ :=
  c1_roundtrip_amended ⟨some "a!b@c", "PRIVMSG", ["#room", "hi"]⟩ (by decide)
    (by decide) (by decide) (Or.inr ⟨"a!b@c", rfl, by decide, by decide⟩)
    (by decide)

/-- C4 counterexample: a module with command table `{"!help"}` and a
catch-all.  The message `"!help\tme"` has first *whitespace*-delimited
token `"!help"`, a registered command, yet the installed wrapper splits on
single spaces only (`msg.split(' ')`), sees the non-command field
`"!help\tme"`, and invokes the catch-all instead of the mapped handler.
This falsifies the claimed whitespace-token dispatch rule. -/
theorem c4_counterexample :
    firstWsToken "!help\tme" = some "!help" ∧
    List.contains ["!help"] "!help" = true ∧
    jaykDispatch ["!help"] true "!help\tme" = [Handled.catchAll] ∧
    jaykDispatch ["!help"] true "!help\tme" ≠ [Handled.cmd "!help"] := by
  refine ⟨by decide, by decide, by decide, by decide⟩

/-- C4 (amended): for a module with both commands and a catch-all, the
wrapper splits the message on *single spaces*; the mapped handler alone
runs when the first field is a registered command, otherwise the catch-all
alone runs (so exactly one of the two, with command match suppressing the
catch-all).  For a module without a catch-all, the inherited dispatcher
splits on whitespace and runs the mapped handler on a first-token match,
else nothing.  The spec's concrete examples hold: `"!help me"` runs only
the handler, `"hello"` only the catch-all. -/
theorem c4_dispatch_amended :
    (∀ (commands : List String) (msg : String) (t : String),
      commands ≠ [] → (pySplitSpace msg).head? = some t →
      jaykDispatch commands true msg =
        (if commands.contains t then [Handled.cmd t] else [Handled.catchAll])) ∧
    (∀ (commands : List String) (msg : String) (t : String),
      firstWsToken msg = some t →
      jaykDispatch commands false msg =
        (if commands.contains t then [Handled.cmd t] else [])) ∧
    (∀ (commands : List String) (msg : String),
      firstWsToken msg = none → jaykDispatch commands false msg = []) ∧
    jaykDispatch ["!help"] true "!help me" = [Handled.cmd "!help"] ∧
    jaykDispatch ["!help"] true "hello" = [Handled.catchAll] := by
  refine ⟨?_, ?_, ?_, by decide, by decide⟩
  · intro commands msg t hc ht
    simp only [jaykDispatch, if_true, if_pos hc, ht]
  · intro commands msg t ht
    simp only [jaykDispatch, Bool.false_eq_true, if_false, firstWsToken] at ht ⊢
    rw [ht]
  · intro commands msg ht
    simp only [jaykDispatch, Bool.false_eq_true, if_false, firstWsToken] at ht ⊢
    rw [ht]

/-- Witness for `c4_dispatch_amended` at the spec's own example. -/
theorem c4_dispatch_amended_witness :
    jaykDispatch ["!help", "!h"] true "!help me" = [Handled.cmd "!help"] := by
  have h := c4_dispatch_amended.1 ["!help", "!h"] "!help me" "!help"
    (by decide) (by decide)
  rw [h]
  decide

/-- C8: `parse("PING :abc123")` yields command `PING` with params
`["abc123"]`; handling a `PING` with a non-empty token sends exactly one
outbound message, a `PONG` echoing the token with `":"` prepended when the
token does not already start with one; formatting the concrete reply gives
the line `"PONG :abc123"`. -/
theorem c8_ping_pong :
    parseMessage "PING :abc123" = some ⟨none, "PING", ["abc123"]⟩ ∧
    (∀ (st : IrcBot) (pfx : Option String) (tok : String) (rest : List String),
      tok ≠ "" →
      baseHandle st ⟨pfx, "PING", tok :: rest⟩ =
        ⟨st, [Ev.send ⟨none, "PONG",
          [if tok.data.head? = some ':' then tok else (':' :: tok.data).asString]⟩],
         none⟩) ∧
    Msg.format ⟨none, "PONG", [":abc123"]⟩ = "PONG :abc123" := by
  refine ⟨by decide, ?_, by decide⟩
  intro st pfx tok rest htok
  have hdata : tok.data ≠ [] := by
    intro hd
    apply htok
    cases tok
    simp at hd
    rw [hd]
  obtain ⟨c, cs, hcc⟩ := List.exists_cons_of_ne_nil hdata
  simp only [baseHandle]
  norm_num [NICK_ERRORS]
  rw [hcc]
  by_cases hc : c = ':'
  · subst hc
    simp
  · simp [hc]

/-- Witness for `c8_ping_pong` at the spec's concrete ping. -/
theorem c8_ping_pong_witness :
    baseHandle stReadyBase ⟨none, "PING", ["abc123"]⟩ =
      ⟨stReadyBase, [Ev.send ⟨none, "PONG", [":abc123"]⟩], none⟩ := by
  have h := c8_ping_pong.2.1 stReadyBase none "abc123" [] (by decide)
  rw [h]
  decide

/-- C10: an inbound `PRIVMSG` whose sender field is `None` (absent or
non-matching prefix — `Message` construction itself never fails, it just
leaves `user = None`) or whose sender nick equals the bot's current nick is
dropped with no state change, no outbound send and no module dispatch —
the same no-op result in both cases; conversely a `PRIVMSG` producing any
action at all has a parsed sender whose nick differs from the bot's. -/
theorem c10_privmsg_drop :
    (∀ (st : IrcBot) (m : Msg), m.command = "PRIVMSG" →
      (Msg.user m = none ∨ ∃ u, Msg.user m = some u ∧ st.nick = some u.nick) →
      baseHandle st m = ⟨st, [], none⟩) ∧
    (∀ (st : IrcBot) (m : Msg), m.command = "PRIVMSG" →
      (baseHandle st m).evs ≠ [] →
      ∃ u, Msg.user m = some u ∧ st.nick ≠ some u.nick) := by
  constructor
  · intro st m hcmd hu
    rcases hu with hnone | ⟨u, husome, hnick⟩
    · simp [baseHandle, hcmd, hnone, NICK_ERRORS]
    · simp [baseHandle, hcmd, husome, hnick, NICK_ERRORS]
  · intro st m hcmd hevs
    cases husome : Msg.user m with
    | none =>
      exfalso
      apply hevs
      simp [baseHandle, hcmd, husome, NICK_ERRORS]
    | some u =>
      by_cases hnick : st.nick = some u.nick
      · exfalso
        apply hevs
        simp [baseHandle, hcmd, husome, hnick, NICK_ERRORS]
      · exact ⟨u, rfl, hnick⟩

/-- Witness for `c10_privmsg_drop`: a `PRIVMSG` with an unparseable prefix
is dropped. -/
theorem c10_privmsg_drop_witness :
    baseHandle stReadyBase ⟨some "badprefix", "PRIVMSG", ["#x", "hi"]⟩ =
      ⟨stReadyBase, [], none⟩ :=
  c10_privmsg_drop.1 stReadyBase ⟨some "badprefix", "PRIVMSG", ["#x", "hi"]⟩
    (by decide) (Or.inl (by decide))

theorem baseHandle_rejection (st : IrcBot) (m : Msg)
    (h : NICK_ERRORS.contains m.command = true) :
    baseHandle st m = tryNextNick st := by
  have hne : ¬m.command = "RPL_MYINFO" := by
    simp only [NICK_ERRORS, List.contains_cons, List.contains_nil, Bool.or_false,
      Bool.or_eq_true, beq_iff_eq] at h
    rcases h with h | h <;> simp [h]
  have hmem : m.command ∈ NICK_ERRORS := by
    simpa using h
  simp [baseHandle, hne, hmem]

theorem runRejections_nicks (msgs : List Msg) : ∀ st : IrcBot,
    (∀ m ∈ msgs, NICK_ERRORS.contains m.command = true) →
    (runRejections st msgs).2.filterMap nickSendOf =
      (st.nicks.drop st.nickCursor).take msgs.length := by
  induction msgs with
  | nil => intro st _; simp [runRejections]
  | cons m rest ih =>
    intro st hall
    simp only [runRejections, baseHandle_rejection st m (hall m (by simp))]
    unfold tryNextNick
    cases hc : st.nicks[st.nickCursor]? with
    | some n =>
      have ihh := ih
        { st with nickCursor := st.nickCursor + 1, nick := some n }
        (fun m2 hm2 => hall m2 (by simp [hm2]))
      simp only at ihh
      simp only [List.filterMap_append, ihh, List.length_cons]
      have hlt : st.nickCursor < st.nicks.length := by
        by_contra hge
        rw [List.getElem?_eq_none (by omega)] at hc
        exact Option.noConfusion hc
      have hdrop : st.nicks.drop st.nickCursor =
          st.nicks[st.nickCursor] :: st.nicks.drop (st.nickCursor + 1) :=
        List.drop_eq_getElem_cons hlt
      have hn : st.nicks[st.nickCursor] = n := by
        rw [List.getElem?_eq_getElem hlt] at hc
        exact Option.some.inj hc
      rw [hdrop, hn, List.take_succ_cons]
      simp [nickSendOf]

    | none =>
      have ihh := ih st (fun m2 hm2 => hall m2 (by simp [hm2]))
      simp only [List.filterMap_append, ihh]
      have hdrop : st.nicks.drop st.nickCursor = [] :=
        List.drop_eq_nil_of_le (by
          by_contra hlt
          rw [List.getElem?_eq_getElem (by omega)] at hc
          exact Option.noConfusion hc)
      simp [hdrop]

/-- C5: with nick candidates `["bot", "bot_"]`, connecting sends the first
`NICK bot`; the first rejection reply sends exactly `NICK bot_`; the second
rejection sends nothing and raises the fatal `NoMoreNicksError` with the
state unchanged (the exhausted rotation never rewinds); and over any number
of further rejections the `NICK` attempts sent are exactly the prefix
`take (k+1) ["bot", "bot_"]` of the candidate list, in order — so a third
attempt is never sent and the cursor never wraps. -/
theorem c5_nick_rotation :
    (baseOnConnect stNickC5).evs.filterMap nickSendOf = ["bot"] ∧
    (baseOnConnect stNickC5).err = none ∧
    (baseHandle (baseOnConnect stNickC5).st rejMsgC5).evs.filterMap nickSendOf =
      ["bot_"] ∧
    (baseHandle (baseOnConnect stNickC5).st rejMsgC5).err = none ∧
    (baseHandle (baseHandle (baseOnConnect stNickC5).st rejMsgC5).st rejMsgC5 =
      ⟨(baseHandle (baseOnConnect stNickC5).st rejMsgC5).st, [],
       some PyErr.noMoreNicks⟩) ∧
    (∀ msgs : List Msg, (∀ m ∈ msgs, NICK_ERRORS.contains m.command = true) →
      ((baseOnConnect stNickC5).evs ++
        (runRejections (baseOnConnect stNickC5).st msgs).2).filterMap nickSendOf =
        ["bot", "bot_"].take (msgs.length + 1)) := by
  refine ⟨by decide, by decide, by decide, by decide, by decide, ?_⟩
  intro msgs hall
  have hst : (baseOnConnect stNickC5).st =
      ⟨["bot", "bot_"], none, "u", [], 1, some "bot", false, ∅, ∅, ∅, ∅⟩ := by
    decide
  rw [List.filterMap_append, hst, runRejections_nicks msgs _ hall]
  simp [baseOnConnect, tryNextNick, stNickC5, nickSendOf, List.take_succ_cons]

/-- Witness for `c5_nick_rotation`: three consecutive rejections still
yield only the two candidate attempts. -/
theorem c5_nick_rotation_witness :
    ((baseOnConnect stNickC5).evs ++
      (runRejections (baseOnConnect stNickC5).st
        [rejMsgC5, rejMsgC5, rejMsgC5]).2).filterMap nickSendOf =
      ["bot", "bot_"] := by
  have h := c5_nick_rotation.2.2.2.2.2 [rejMsgC5, rejMsgC5, rejMsgC5] (by decide)
  rw [h]
  decide

theorem andThen_assoc {σ : Type} (a : StepOut σ) (g f : σ → StepOut σ) :
    (a.andThen g).andThen f = a.andThen (fun s => (g s).andThen f) := by
  obtain ⟨ast, aevs, aerr⟩ := a
  cases aerr with
  | some e => rfl
  | none =>
    simp only [StepOut.andThen]
    cases hg : (g ast).err with
    | some e => simp [StepOut.andThen, hg, List.append_assoc]
    | none => simp [StepOut.andThen, hg, List.append_assoc]

theorem andThen_cons_evs {σ : Type} (s : σ) (e : Ev) (evs : List Ev)
    (err : Option PyErr) (f : σ → StepOut σ) :
    StepOut.andThen ⟨s, e :: evs, err⟩ f =
      ⟨(StepOut.andThen ⟨s, evs, err⟩ f).st,
       e :: (StepOut.andThen ⟨s, evs, err⟩ f).evs,
       (StepOut.andThen ⟨s, evs, err⟩ f).err⟩ := by
  cases err <;> simp [StepOut.andThen]

/-- C9 counterexample: the batch `"@@@\r\nKICK #r\r\nPING :x"` contains the
malformed line `"@@@"` (logged and discarded, as claimed) and the
well-formed lines `"KICK #r"` and `"PING :x"`.  Handling `"KICK #r"` raises
an uncaught `IndexError` (`message.params[1]`), which escapes the receive
loop, so the well-formed `"PING :x"` later in the same batch is never
parsed or handled — no `PONG` is sent.  This falsifies the claim that every
well-formed line of such a batch is still parsed and handled. -/
theorem c9_counterexample :
    parseMessage "@@@" = none ∧
    parseMessage "KICK #r" = some ⟨none, "KICK", ["#r"]⟩ ∧
    parseMessage "PING :x" = some ⟨none, "PING", ["x"]⟩ ∧
    dataReceived stReadyBase "@@@\r\nKICK #r\r\nPING :x" =
      ⟨stReadyBase, [Ev.logError "@@@"], some PyErr.indexError⟩ := by
  refine ⟨by decide, by decide, by decide, by decide⟩

/-- C9 (amended): a line rejected by `Message.parse` is logged and dropped
without raising past the receive loop and without touching the state, and
processing continues with the remaining lines exactly as if the line were
absent; batches compose sequentially; a well-formed line is handed to the
message handler, and only an exception raised by that *handler* (never a
parse failure) aborts the remainder of the batch.  Nothing in the loop
terminates the connection (the model has no disconnect action). -/
theorem c9_malformed_amended :
    (∀ (st : IrcBot) (line : String) (rest : List String),
      parseMessage line = none →
      processLines st (line :: rest) =
        ⟨(processLines st rest).st, Ev.logError line :: (processLines st rest).evs,
         (processLines st rest).err⟩) ∧
    (∀ (st : IrcBot) (l1 l2 : List String),
      processLines st (l1 ++ l2) =
        (processLines st l1).andThen (fun s => processLines s l2)) ∧
    (∀ (st : IrcBot) (line : String) (rest : List String) (m : Msg),
      parseMessage line = some m →
      processLines st (line :: rest) =
        (baseHandle st m).andThen (fun s => processLines s rest)) ∧
    (∀ (st : IrcBot) (data : String),
      dataReceived st data =
        processLines st ((pySplitCRLF data).filter (fun l => l ≠ ""))) := by
  refine ⟨?_, ?_, ?_, fun st data => rfl⟩
  · intro st line rest hbad
    simp [processLines, hbad]
  · intro st l1 l2
    induction l1 generalizing st with
    | nil => simp [processLines, StepOut.andThen]
    | cons line rest ih =>
      cases hp : parseMessage line with
      | none =>
        simp only [List.cons_append, List.append_eq, processLines, hp, ih st]
        rw [andThen_cons_evs]
      | some m =>
        simp only [List.cons_append, List.append_eq, processLines, hp]
        have hfun : (fun s => processLines s (rest ++ l2)) =
            (fun s => (processLines s rest).andThen (fun s2 => processLines s2 l2)) :=
          funext fun s => ih s
        rw [hfun, ← andThen_assoc]
  · intro st line rest m hgood
    simp [processLines, hgood]

/-- Witness for `c9_malformed_amended`: a malformed line followed by a ping
is dropped and the ping still answered. -/
theorem c9_malformed_amended_witness :
    processLines stReadyBase ["@@@", "PING :x"] =
      ⟨stReadyBase, [Ev.logError "@@@", Ev.send ⟨none, "PONG", [":x"]⟩], none⟩ := by
  have h := c9_malformed_amended.1 stReadyBase "@@@" ["PING :x"] (by decide)
  rw [h]
  decide

theorem lookup_eq_none_of_not_mem {α : Type} (reg : List (String × α)) (n : String)
    (h : n ∉ reg.map Prod.fst) : List.lookup n reg = none := by
  induction reg with
  | nil => rfl
  | cons p t ih =>
    obtain ⟨k, w⟩ := p
    simp only [List.map_cons, List.mem_cons] at h
    push_neg at h
    rw [List.lookup]
    have hne : (n == k) = false := beq_eq_false_iff_ne.mpr h.1
    rw [hne]
    exact ih h.2

theorem lookup_some_mem {α : Type} (reg : List (String × α)) (n : String) (v : α)
    (h : List.lookup n reg = some v) : (n, v) ∈ reg := by
  induction reg with
  | nil => simp [List.lookup] at h
  | cons p t ih =>
    obtain ⟨k, w⟩ := p
    rw [List.lookup] at h
    cases hbe : (n == k) with
    | true =>
      rw [hbe] at h
      have hn : n = k := by simpa using hbe
      have hv : w = v := by simpa using h
      rw [List.mem_cons]
      left
      rw [hn, hv]
    | false =>
      rw [hbe] at h
      exact List.mem_cons_of_mem _ (ih h)

theorem lookup_isSome_of_mem_keys {α : Type} (reg : List (String × α)) (n : String)
    (h : n ∈ reg.map Prod.fst) : (List.lookup n reg).isSome = true := by
  induction reg with
  | nil => simp at h
  | cons p t ih =>
    obtain ⟨k, w⟩ := p
    rw [List.lookup]
    cases hbe : (n == k) with
    | true => rfl
    | false =>
      have hne : ¬n = k := by simpa using hbe
      simp only [List.map_cons, List.mem_cons, hne, false_or] at h
      exact ih h

theorem lookup_dictErase_ne {α : Type} (reg : List (String × α)) (n m : String)
    (h : ¬n = m) : List.lookup n (dictErase reg m) = List.lookup n reg := by
  induction reg with
  | nil => rfl
  | cons p t ih =>
    obtain ⟨k, w⟩ := p
    simp only [dictErase, List.eraseP_cons]
    by_cases hp : k = m
    · have hc : decide ((k, w).1 = m) = true := by simp [hp]
      rw [hc, cond_true]
      simp only [List.lookup]
      have hne : (n == k) = false := beq_eq_false_iff_ne.mpr (by rw [hp]; exact h)
      rw [hne]
    · have hc : decide ((k, w).1 = m) = false := by simp [hp]
      rw [hc, cond_false]
      simp only [List.lookup]
      cases hbe : (n == k) with
      | true => rfl
      | false => exact ih

theorem lookup_dictErase_self {α : Type} (reg : List (String × α)) (n : String)
    (hnd : (reg.map Prod.fst).Nodup) : List.lookup n (dictErase reg n) = none := by
  induction reg with
  | nil => rfl
  | cons p t ih =>
    obtain ⟨k, w⟩ := p
    simp only [List.map_cons, List.nodup_cons] at hnd
    simp only [dictErase, List.eraseP_cons]
    by_cases hp : k = n
    · have hc : decide ((k, w).1 = n) = true := by simp [hp]
      rw [hc, cond_true]
      exact lookup_eq_none_of_not_mem t n (by rw [← hp]; exact hnd.1)
    · have hc : decide ((k, w).1 = n) = false := by simp [hp]
      rw [hc, cond_false]
      simp only [List.lookup]
      have hne : (n == k) = false := beq_eq_false_iff_ne.mpr (fun he => hp he.symm)
      rw [hne]
      exact ih hnd.2

theorem nodup_keys_dictErase {α : Type} (reg : List (String × α)) (m : String)
    (hnd : (reg.map Prod.fst).Nodup) : ((dictErase reg m).map Prod.fst).Nodup :=
  hnd.sublist ((List.eraseP_sublist reg).map Prod.fst)

theorem lookup_dictInsert_self {α : Type} (reg : List (String × α)) (n : String) (v : α) :
    List.lookup n (dictInsert reg n v) = some v := by
  induction reg with
  | nil =>
    simp only [dictInsert, List.lookup]
    simp
  | cons p t ih =>
    obtain ⟨k, w⟩ := p
    rw [dictInsert]
    by_cases hp : k = n
    · simp only [if_pos hp]
      simp only [List.lookup]
      have hbe : (n == k) = true := by simp [hp]
      rw [hbe]
    · simp only [if_neg hp]
      simp only [List.lookup]
      have hbe : (n == k) = false := beq_eq_false_iff_ne.mpr (fun he => hp he.symm)
      rw [hbe]
      exact ih

theorem lookup_dictInsert_ne {α : Type} (reg : List (String × α)) (n m : String) (v : α)
    (h : ¬n = m) : List.lookup n (dictInsert reg m v) = List.lookup n reg := by
  induction reg with
  | nil =>
    simp only [dictInsert, List.lookup]
    have hbe : (n == m) = false := beq_eq_false_iff_ne.mpr h
    rw [hbe]
  | cons p t ih =>
    obtain ⟨k, w⟩ := p
    rw [dictInsert]
    by_cases hp : k = m
    · simp only [if_pos hp]
      simp only [List.lookup]
      have hbe : (n == k) = false :=
        beq_eq_false_iff_ne.mpr (by rw [hp]; exact h)
      rw [hbe]
    · simp only [if_neg hp]
      simp only [List.lookup]
      cases hbe : (n == k) with
      | true => rfl
      | false => exact ih

theorem mem_dictKeys {α : Type} (reg : List (String × α)) (n : String) :
    n ∈ dictKeys reg ↔ n ∈ reg.map Prod.fst := by
  simp [dictKeys]

theorem finsetAsList_spec (s : Finset String) :
    (∀ a, a ∈ finsetAsList s ↔ a ∈ s) ∧ (finsetAsList s).Nodup := by
  obtain ⟨m, hm⟩ := s
  induction m using Quotient.inductionOn with
  | h l =>
    constructor
    · intro a
      show a ∈ List.insertionSort strLeR l ↔ _
      rw [(List.perm_insertionSort strLeR l).mem_iff]
      simp [Finset.mem_def, Multiset.mem_coe]
    · show (List.insertionSort strLeR l).Nodup
      exact ((List.perm_insertionSort strLeR l).nodup_iff).mpr hm

theorem mem_keys_of_lookup_some {α : Type} {reg : List (String × α)} {n : String}
    {v : α} (h : List.lookup n reg = some v) : n ∈ reg.map Prod.fst :=
  List.mem_map_of_mem Prod.fst (lookup_some_mem _ _ _ h)

theorem foldUnloads (names : List String) : ∀ st : JaykBot,
    names.Nodup → (st.registry.map Prod.fst).Nodup →
    (∀ n ∈ names, n ∈ st.registry.map Prod.fst) →
    ∃ reg2,
      foldSteps jaykUnloadModule names st =
        ⟨{ st with registry := reg2 }, names.map Ev.onUnload, none⟩ ∧
      (reg2.map Prod.fst).Nodup ∧
      (∀ m, m ∉ names → List.lookup m reg2 = List.lookup m st.registry) ∧
      (∀ n ∈ names, List.lookup n reg2 = none) := by
  induction names with
  | nil =>
    intro st _ hnd _
    exact ⟨st.registry, rfl, hnd, fun m _ => rfl, fun n hn => absurd hn (by simp)⟩
  | cons n rest ih =>
    intro st hnodup hnd hmem
    simp only [List.nodup_cons] at hnodup
    have hsome := lookup_isSome_of_mem_keys st.registry n (hmem n (by simp))
    obtain ⟨v, hv⟩ := Option.isSome_iff_exists.mp hsome
    have hstep : jaykUnloadModule st n =
        ⟨{ st with registry := dictErase st.registry n }, [Ev.onUnload n], none⟩ := by
      simp [jaykUnloadModule, hv]
    obtain ⟨reg2, heq, hnd2, hpre, hgone⟩ :=
      ih { st with registry := dictErase st.registry n } hnodup.2
        (nodup_keys_dictErase _ _ hnd)
        (fun m hm => by
          have hne : ¬m = n := fun he => hnodup.1 (he ▸ hm)
          have : List.lookup m (dictErase st.registry n) =
              List.lookup m st.registry := lookup_dictErase_ne _ _ _ hne
          have hs := lookup_isSome_of_mem_keys st.registry m
            (hmem m (by simp [hm]))
          rw [← this] at hs
          obtain ⟨w, hw⟩ := Option.isSome_iff_exists.mp hs
          exact mem_keys_of_lookup_some hw)
    refine ⟨reg2, ?_, hnd2, ?_, ?_⟩
    · simp only [foldSteps, hstep, StepOut.andThen, heq]
      simp
    · intro m hm
      simp only [List.mem_cons] at hm
      push_neg at hm
      rw [hpre m hm.2]
      exact lookup_dictErase_ne _ _ _ hm.1
    · intro k hk
      simp only [List.mem_cons] at hk
      rcases hk with rfl | hk
      · rw [hpre k hnodup.1]
        exact lookup_dictErase_self _ _ hnd
      · exact hgone k hk

theorem foldLoads (names : List String) : ∀ st : JaykBot,
    (∀ n ∈ names, ∃ cfg, List.lookup n st.configMods = some cfg ∧ cfg.enabled = true) →
    ∃ reg2,
      foldSteps jaykLoadStep names st =
        ⟨{ st with registry := reg2, nextId := st.nextId + names.length },
         expectedLoads names st.nextId, none⟩ ∧
      (∀ m, m ∉ names → List.lookup m reg2 = List.lookup m st.registry) := by
  induction names with
  | nil =>
    intro st _
    exact ⟨st.registry, rfl, fun m _ => rfl⟩
  | cons n rest ih =>
    intro st hcfg
    obtain ⟨cfg, hlook, hen⟩ := hcfg n (by simp)
    have hstep : jaykLoadStep st n =
        ⟨{ st with
            registry := dictInsert st.registry n (⟨st.nextId, cfg.rooms⟩ : ModInst),
            nextId := st.nextId + 1 },
         [Ev.loadInstance n st.nextId], none⟩ := by
      simp [jaykLoadStep, hlook, jaykLoadModule, hen]
    obtain ⟨reg2, heq, hpre⟩ :=
      ih { st with
            registry := dictInsert st.registry n (⟨st.nextId, cfg.rooms⟩ : ModInst),
            nextId := st.nextId + 1 }
        (fun m hm => hcfg m (by simp [hm]))
    refine ⟨reg2, ?_, ?_⟩
    · simp only [foldSteps, hstep, StepOut.andThen, heq]
      have harith : st.nextId + 1 + rest.length = st.nextId + (rest.length + 1) := by
        omega
      simp [expectedLoads, harith]
    · intro m hm
      simp only [List.mem_cons] at hm
      push_neg at hm
      rw [hpre m hm.2]
      exact lookup_dictInsert_ne _ _ _ _ hm.1

theorem foldUpdates (names : List String) : ∀ st : JaykBot,
    names.Nodup →
    (∀ n ∈ names, (List.lookup n st.configMods).isSome = true ∧
      (List.lookup n st.registry).isSome = true) →
    ∃ reg2,
      foldSteps jaykUpdateStep names st =
        ⟨{ st with registry := reg2 }, expectedUpdates st.configMods names, none⟩ ∧
      (∀ m, m ∉ names → List.lookup m reg2 = List.lookup m st.registry) ∧
      (∀ n ∈ names, ∀ inst cfg, List.lookup n st.registry = some inst →
        List.lookup n st.configMods = some cfg →
        List.lookup n reg2 = some ⟨inst.instId, cfg.rooms⟩) := by
  induction names with
  | nil =>
    intro st _ _
    exact ⟨st.registry, rfl, fun m _ => rfl, fun n hn => absurd hn (by simp)⟩
  | cons n rest ih =>
    intro st hnodup hsome
    simp only [List.nodup_cons] at hnodup
    obtain ⟨cfg, hcfg⟩ := Option.isSome_iff_exists.mp (hsome n (by simp)).1
    obtain ⟨inst, hinst⟩ := Option.isSome_iff_exists.mp (hsome n (by simp)).2
    have hstep : jaykUpdateStep st n =
        ⟨{ st with registry := dictInsert st.registry n (⟨inst.instId, cfg.rooms⟩ : ModInst) },
         [Ev.updateConfig n, Ev.onUpdateParams n cfg.params], none⟩ := by
      simp [jaykUpdateStep, hcfg, jaykUpdateModule, hinst]
    obtain ⟨reg2, heq, hpre, hupd⟩ :=
      ih { st with registry := dictInsert st.registry n (⟨inst.instId, cfg.rooms⟩ : ModInst) }
        hnodup.2
        (fun m hm => by
          have hne : ¬m = n := fun he => hnodup.1 (he ▸ hm)
          constructor
          · exact (hsome m (by simp [hm])).1
          · show (List.lookup m (dictInsert st.registry n _)).isSome = true
            rw [lookup_dictInsert_ne _ _ _ _ hne]
            exact (hsome m (by simp [hm])).2)
    refine ⟨reg2, ?_, ?_, ?_⟩
    · simp only [foldSteps, hstep, StepOut.andThen, heq]
      simp [expectedUpdates, hcfg]
    · intro m hm
      simp only [List.mem_cons] at hm
      push_neg at hm
      rw [hpre m hm.2]
      exact lookup_dictInsert_ne _ _ _ _ hm.1
    · intro k hk inst2 cfg2 hinst2 hcfg2
      simp only [List.mem_cons] at hk
      rcases hk with rfl | hk
      · have h1 : inst2 = inst := by rw [hinst] at hinst2; exact (Option.some.inj hinst2).symm
        have h2 : cfg2 = cfg := by rw [hcfg] at hcfg2; exact (Option.some.inj hcfg2).symm
        rw [hpre k hnodup.1, h1, h2]
        exact lookup_dictInsert_self _ _ _
      · have hne : ¬k = n := fun he => hnodup.1 (he ▸ hk)
        refine hupd k hk inst2 cfg2 ?_ hcfg2
        show List.lookup k (dictInsert st.registry n _) = some inst2
        rw [lookup_dictInsert_ne _ _ _ _ hne]
        exact hinst2

theorem matchDesiredModules_run (st : JaykBot)
    (hndR : (st.registry.map Prod.fst).Nodup)
    (hkeys : st.stateModules = dictKeys st.registry)
    (hen : ∀ p ∈ st.configMods, p.2.enabled = true) :
    ∃ reg2,
      jaykMatchDesiredModules st =
        ⟨{ st with
            registry := reg2,
            nextId := st.nextId +
              (finsetAsList (dictKeys st.configMods \ st.stateModules)).length,
            stateModules := dictKeys reg2 },
         (finsetAsList (st.stateModules \ dictKeys st.configMods)).map Ev.onUnload ++
           expectedLoads (finsetAsList (dictKeys st.configMods \ st.stateModules))
             st.nextId ++
           expectedUpdates st.configMods
             (finsetAsList (dictKeys st.configMods ∩ st.stateModules)),
         none⟩ ∧
      (∀ n ∈ finsetAsList (st.stateModules \ dictKeys st.configMods),
        List.lookup n reg2 = none) ∧
      (∀ n inst cfg, n ∈ dictKeys st.configMods → n ∈ st.stateModules →
        List.lookup n st.registry = some inst →
        List.lookup n st.configMods = some cfg →
        List.lookup n reg2 = some ⟨inst.instId, cfg.rooms⟩) := by
  have hrm := (finsetAsList_spec (st.stateModules \ dictKeys st.configMods))
  have had := (finsetAsList_spec (dictKeys st.configMods \ st.stateModules))
  have hup := (finsetAsList_spec (dictKeys st.configMods ∩ st.stateModules))
  -- phase 1: unloads
  obtain ⟨reg1, heq1, hnd1, hpre1, hgone1⟩ :=
    foldUnloads (finsetAsList (st.stateModules \ dictKeys st.configMods)) st
      hrm.2 hndR
      (fun n hn => by
        have hmem := (hrm.1 n).mp hn
        rw [Finset.mem_sdiff] at hmem
        have : n ∈ dictKeys st.registry := hkeys ▸ hmem.1
        exact (mem_dictKeys _ _).mp this)
  -- phase 2: loads
  obtain ⟨reg2, heq2, hpre2⟩ :=
    foldLoads (finsetAsList (dictKeys st.configMods \ st.stateModules))
      { st with registry := reg1 }
      (fun n hn => by
        have hmem := (had.1 n).mp hn
        rw [Finset.mem_sdiff] at hmem
        have h1 : n ∈ st.configMods.map Prod.fst := (mem_dictKeys _ _).mp hmem.1
        obtain ⟨cfg, hcfg⟩ := Option.isSome_iff_exists.mp
          (lookup_isSome_of_mem_keys _ _ h1)
        exact ⟨cfg, hcfg, hen (n, cfg) (lookup_some_mem _ _ _ hcfg)⟩)
  -- phase 3: updates
  have hupset : ∀ n ∈ finsetAsList (dictKeys st.configMods ∩ st.stateModules),
      n ∈ dictKeys st.configMods ∧ n ∈ st.stateModules := by
    intro n hn
    have hmem := (hup.1 n).mp hn
    rw [Finset.mem_inter] at hmem
    exact hmem
  have hpreserve : ∀ n, n ∈ st.stateModules → n ∈ dictKeys st.configMods →
      List.lookup n reg2 = List.lookup n st.registry := by
    intro n hn1 hn2
    have hnotadd : n ∉ finsetAsList (dictKeys st.configMods \ st.stateModules) := by
      intro hcontra
      have := (had.1 n).mp hcontra
      rw [Finset.mem_sdiff] at this
      exact this.2 hn1
    have hnotrm : n ∉ finsetAsList (st.stateModules \ dictKeys st.configMods) := by
      intro hcontra
      have := (hrm.1 n).mp hcontra
      rw [Finset.mem_sdiff] at this
      exact this.2 hn2
    rw [hpre2 n hnotadd]
    exact hpre1 n hnotrm
  obtain ⟨reg3, heq3, hpre3, hupd3⟩ :=
    foldUpdates (finsetAsList (dictKeys st.configMods ∩ st.stateModules))
      { st with
          registry := reg2,
          nextId := st.nextId +
            (finsetAsList (dictKeys st.configMods \ st.stateModules)).length }
      hup.2
      (fun n hn => by
        obtain ⟨h1, h2⟩ := hupset n hn
        constructor
        · exact lookup_isSome_of_mem_keys _ _ ((mem_dictKeys _ _).mp h1)
        · show (List.lookup n reg2).isSome = true
          rw [hpreserve n h2 h1]
          exact lookup_isSome_of_mem_keys _ _
            ((mem_dictKeys _ _).mp (hkeys ▸ h2)))
  refine ⟨reg3, ?_, ?_, ?_⟩
  · simp only [jaykMatchDesiredModules, heq1, StepOut.andThen, heq2, heq3]
    simp [List.append_assoc]
  · intro n hn
    have hnotup : n ∉ finsetAsList (dictKeys st.configMods ∩ st.stateModules) := by
      intro hcontra
      have h1 := (hup.1 n).mp hcontra
      have h2 := (hrm.1 n).mp hn
      rw [Finset.mem_inter] at h1
      rw [Finset.mem_sdiff] at h2
      exact h2.2 h1.1
    have hnotadd : n ∉ finsetAsList (dictKeys st.configMods \ st.stateModules) := by
      intro hcontra
      have h1 := (had.1 n).mp hcontra
      have h2 := (hrm.1 n).mp hn
      rw [Finset.mem_sdiff] at h1 h2
      exact h2.2 h1.1
    rw [hpre3 n hnotup]
    show List.lookup n reg2 = none
    rw [hpre2 n hnotadd]
    exact hgone1 n hn
  · intro n inst cfg h1 h2 hinst hcfg
    have hnmem : n ∈ finsetAsList (dictKeys st.configMods ∩ st.stateModules) :=
      (hup.1 n).mpr (Finset.mem_inter.mpr ⟨h1, h2⟩)
    refine hupd3 n hnmem inst cfg ?_ hcfg
    show List.lookup n reg2 = some inst
    rw [hpreserve n h2 h1]
    exact hinst

theorem expectedLoads_shape : ∀ (names : List String) (start : Nat) (e : Ev),
    e ∈ expectedLoads names start → ∃ n i, e = Ev.loadInstance n i ∧ n ∈ names := by
  intro names
  induction names with
  | nil => intro start e he; simp [expectedLoads] at he
  | cons n rest ih =>
    intro start e he
    simp only [expectedLoads, List.mem_cons] at he
    rcases he with rfl | he
    · exact ⟨n, start, rfl, by simp⟩
    · obtain ⟨n2, i2, rfl, hn2⟩ := ih (start + 1) e he
      exact ⟨n2, i2, rfl, by simp [hn2]⟩

theorem expectedUpdates_shape : ∀ (cfgs : List (String × ModConfig))
    (names : List String) (e : Ev), e ∈ expectedUpdates cfgs names →
    ∃ n, n ∈ names ∧ (e = Ev.updateConfig n ∨ ∃ ps, e = Ev.onUpdateParams n ps) := by
  intro cfgs names
  induction names with
  | nil => intro e he; simp [expectedUpdates] at he
  | cons n rest ih =>
    intro e he
    simp only [expectedUpdates, List.flatMap_cons, List.mem_append] at he
    rcases he with he | he
    · cases hc : List.lookup n cfgs with
      | none => rw [hc] at he; simp at he
      | some c =>
        rw [hc] at he
        simp only [List.mem_cons, List.mem_singleton] at he
        rcases he with rfl | rfl | hfalse
        · exact ⟨n, by simp, Or.inl rfl⟩
        · exact ⟨n, by simp, Or.inr ⟨c.params, rfl⟩⟩
        · simp at hfalse
    · obtain ⟨n2, hn2, hshape⟩ := ih e he
      exact ⟨n2, by simp [hn2], hshape⟩

theorem expectedUpdates_self : ∀ (cfgs : List (String × ModConfig))
    (names : List String) (n : String) (c : ModConfig), n ∈ names →
    List.lookup n cfgs = some c →
    Ev.updateConfig n ∈ expectedUpdates cfgs names ∧
    Ev.onUpdateParams n c.params ∈ expectedUpdates cfgs names := by
  intro cfgs names
  induction names with
  | nil => intro n c hn; simp at hn
  | cons m rest ih =>
    intro n c hn hc
    simp only [List.mem_cons] at hn
    simp only [expectedUpdates, List.flatMap_cons, List.mem_append]
    rcases hn with rfl | hn
    · rw [hc]
      exact ⟨Or.inl (by simp), Or.inl (by simp)⟩
    · obtain ⟨h1, h2⟩ := ih n c hn hc
      exact ⟨Or.inr h1, Or.inr h2⟩

/-- C6: one pass of `match_desired_modules` succeeds and its action trace
is exactly the unloads of `to_unload = actual − desired`, then the loads of
`to_load = desired − actual`, then the updates of
`to_update = desired ∩ actual` — every unload before every load before
every update; moreover each unloaded module got its `on_unload` call and
its instance is gone from the registry afterwards. -/
theorem c6_module_order (st : JaykBot)
    (hndR : (st.registry.map Prod.fst).Nodup)
    (hkeys : st.stateModules = dictKeys st.registry)
    (hen : ∀ p ∈ st.configMods, p.2.enabled = true) :
    (jaykMatchDesiredModules st).err = none ∧
    (jaykMatchDesiredModules st).evs =
      (finsetAsList (st.stateModules \ dictKeys st.configMods)).map Ev.onUnload ++
      expectedLoads (finsetAsList (dictKeys st.configMods \ st.stateModules))
        st.nextId ++
      expectedUpdates st.configMods
        (finsetAsList (dictKeys st.configMods ∩ st.stateModules)) ∧
    (∀ n ∈ finsetAsList (st.stateModules \ dictKeys st.configMods),
      Ev.onUnload n ∈ (jaykMatchDesiredModules st).evs ∧
      List.lookup n (jaykMatchDesiredModules st).st.registry = none) := by
  obtain ⟨reg2, heq, hgone, _⟩ := matchDesiredModules_run st hndR hkeys hen
  rw [heq]
  refine ⟨rfl, by simp, ?_⟩
  intro n hn
  constructor
  · simp only [List.append_assoc, List.mem_append]
    exact Or.inl (List.mem_map_of_mem Ev.onUnload hn)
  · exact hgone n hn

/-- Witness for `c6_module_order`: unload `b`, load `c`, update `a`. -/
theorem c6_module_order_witness :
    (jaykMatchDesiredModules stMixC6).err = none ∧
    (jaykMatchDesiredModules stMixC6).evs =
      [Ev.onUnload "b", Ev.loadInstance "c" 2, Ev.updateConfig "a",
       Ev.onUpdateParams "a" [("k", "v")]] ∧
    List.lookup "b" (jaykMatchDesiredModules stMixC6).st.registry = none := by
  have h := c6_module_order stMixC6 (by decide) (by decide) (by decide)
  refine ⟨h.1, ?_, ?_⟩
  · rw [h.2.1]
    decide
  · exact (h.2.2 "b" (by decide)).2

/-- C7: a module that stays enabled across the pass (present in both the
configuration keys and the actual module set) has `update_config` and
`on_update_params` invoked with its configured params, is never unloaded
or re-instantiated, and — when only its params changed — keeps the very
same instance (same identity, same rooms) registered under its name. -/
theorem c7_update_path (st : JaykBot) (name : String) (inst : ModInst)
    (cfg : ModConfig)
    (hndR : (st.registry.map Prod.fst).Nodup)
    (hkeys : st.stateModules = dictKeys st.registry)
    (hen : ∀ p ∈ st.configMods, p.2.enabled = true)
    (hmem1 : name ∈ dictKeys st.configMods)
    (hmem2 : name ∈ st.stateModules)
    (hinst : List.lookup name st.registry = some inst)
    (hcfg : List.lookup name st.configMods = some cfg)
    (hrooms : cfg.rooms = inst.rooms) :
    (jaykMatchDesiredModules st).err = none ∧
    Ev.updateConfig name ∈ (jaykMatchDesiredModules st).evs ∧
    Ev.onUpdateParams name cfg.params ∈ (jaykMatchDesiredModules st).evs ∧
    Ev.onUnload name ∉ (jaykMatchDesiredModules st).evs ∧
    (∀ i, Ev.loadInstance name i ∉ (jaykMatchDesiredModules st).evs) ∧
    List.lookup name (jaykMatchDesiredModules st).st.registry = some inst := by
  obtain ⟨reg2, heq, _, hupd⟩ := matchDesiredModules_run st hndR hkeys hen
  rw [heq]
  have hrm := finsetAsList_spec (st.stateModules \ dictKeys st.configMods)
  have had := finsetAsList_spec (dictKeys st.configMods \ st.stateModules)
  have hup := finsetAsList_spec (dictKeys st.configMods ∩ st.stateModules)
  have hinup : name ∈ finsetAsList (dictKeys st.configMods ∩ st.stateModules) :=
    (hup.1 name).mpr (Finset.mem_inter.mpr ⟨hmem1, hmem2⟩)
  obtain ⟨hu1, hu2⟩ := expectedUpdates_self st.configMods _ name cfg hinup hcfg
  refine ⟨rfl, ?_, ?_, ?_, ?_, ?_⟩
  · simp only [List.mem_append]
    exact Or.inr hu1
  · simp only [List.mem_append]
    exact Or.inr hu2
  · intro hmem
    simp only [List.mem_append] at hmem
    rcases hmem with (hmem | hmem) | hmem
    · rw [List.mem_map] at hmem
      obtain ⟨n2, hn2, heq2⟩ := hmem
      have : n2 = name := by
        injection heq2 with h
      rw [this] at hn2
      have := (hrm.1 name).mp hn2
      rw [Finset.mem_sdiff] at this
      exact this.2 hmem1
    · obtain ⟨n2, i2, hshape, _⟩ := expectedLoads_shape _ _ _ hmem
      exact Ev.noConfusion hshape
    · obtain ⟨n2, _, hshape⟩ := expectedUpdates_shape _ _ _ hmem
      rcases hshape with hshape | ⟨ps, hshape⟩ <;> exact Ev.noConfusion hshape
  · intro i hmem
    simp only [List.mem_append] at hmem
    rcases hmem with (hmem | hmem) | hmem
    · rw [List.mem_map] at hmem
      obtain ⟨n2, _, heq2⟩ := hmem
      exact Ev.noConfusion heq2
    · obtain ⟨n2, i2, hshape, hn2⟩ := expectedLoads_shape _ _ _ hmem
      have hn : n2 = name := by
        injection hshape with h1 h2
        exact h1.symm
      rw [hn] at hn2
      have := (had.1 name).mp hn2
      rw [Finset.mem_sdiff] at this
      exact this.2 hmem2
    · obtain ⟨n2, _, hshape⟩ := expectedUpdates_shape _ _ _ hmem
      rcases hshape with hshape | ⟨ps, hshape⟩ <;> exact Ev.noConfusion hshape
  · have := hupd name inst cfg hmem1 hmem2 hinst hcfg
    rw [hrooms] at this
    simpa using this

/-- Witness for `c7_update_path` at the concrete two-module state. -/
theorem c7_update_path_witness :
    Ev.updateConfig "a" ∈ (jaykMatchDesiredModules stEqC2).evs ∧
    Ev.onUnload "a" ∉ (jaykMatchDesiredModules stEqC2).evs ∧
    List.lookup "a" (jaykMatchDesiredModules stEqC2).st.registry =
      some ⟨0, {"#x"}⟩ := by
  have h := c7_update_path stEqC2 "a" ⟨0, {"#x"}⟩ ⟨true, {"#x"}, []⟩
    (by decide) (by decide) (by decide) (by decide) (by decide)
    (by decide) (by decide) (by decide)
  exact ⟨h.2.1, h.2.2.2.1, h.2.2.2.2.2⟩

theorem updates_countP_zero (cfgs : List (String × ModConfig))
    (names : List String) (p : Ev → Bool)
    (hp : ∀ n ps, p (Ev.updateConfig n) = false ∧ p (Ev.onUpdateParams n ps) = false) :
    (expectedUpdates cfgs names).countP p = 0 := by
  rw [List.countP_eq_zero]
  intro e he
  obtain ⟨n, _, hsh⟩ := expectedUpdates_shape _ _ _ he
  rcases hsh with rfl | ⟨ps, rfl⟩
  · simp [(hp n []).1]
  · simp [(hp n ps).2]

theorem updates_filter_nil (cfgs : List (String × ModConfig))
    (names : List String) (p : Ev → Bool)
    (hp : ∀ n ps, p (Ev.updateConfig n) = false ∧ p (Ev.onUpdateParams n ps) = false) :
    (expectedUpdates cfgs names).filter p = [] := by
  rw [List.filter_eq_nil_iff]
  intro e he
  obtain ⟨n, _, hsh⟩ := expectedUpdates_shape _ _ _ he
  rcases hsh with rfl | ⟨ps, rfl⟩
  · simp [(hp n []).1]
  · simp [(hp n ps).2]

/-- C2: with the module sets already in sync, a reconciliation pass whose
desired rooms equal the actual rooms performs zero join, leave (part),
load, and unload actions and raises nothing (updates are re-applied but
are none of those four); and a pass whose desired room set has only grown
emits exactly one batched `JOIN` covering the missing rooms and zero leave
actions. -/
theorem c2_reconcile_minimal (st : JaykBot)
    (hndR : (st.registry.map Prod.fst).Nodup)
    (hkeys : st.stateModules = dictKeys st.registry)
    (hen : ∀ p ∈ st.configMods, p.2.enabled = true)
    (hmods : dictKeys st.configMods = st.stateModules) :
    (st.stateRooms = st.desiredRooms →
      (jaykMatchDesiredState st).err = none ∧
      (jaykMatchDesiredState st).evs.countP isJoinSend = 0 ∧
      (jaykMatchDesiredState st).evs.countP isPartSend = 0 ∧
      (jaykMatchDesiredState st).evs.countP isLoad = 0 ∧
      (jaykMatchDesiredState st).evs.countP isUnload = 0) ∧
    (st.ready = true → st.stateRooms ⊆ st.desiredRooms →
      st.desiredRooms \ st.stateRooms ≠ ∅ →
      (jaykMatchDesiredState st).err = none ∧
      (jaykMatchDesiredState st).evs.filter isJoinSend =
        [Ev.send ⟨none, "JOIN", [joinComma (st.desiredRooms \ st.stateRooms)]⟩] ∧
      (jaykMatchDesiredState st).evs.countP isPartSend = 0) := by
  obtain ⟨reg2, heq, _, _⟩ := matchDesiredModules_run st hndR hkeys hen
  have hrm : st.stateModules \ dictKeys st.configMods = ∅ := by
    rw [hmods, Finset.sdiff_self]
  have had : dictKeys st.configMods \ st.stateModules = ∅ := by
    rw [hmods, Finset.sdiff_self]
  have hfe : finsetAsList (∅ : Finset String) = [] := rfl
  rw [hrm, had, hfe] at heq
  simp only [List.map_nil, expectedLoads, List.nil_append, List.length_nil,
    Nat.add_zero] at heq
  have hstate : jaykMatchDesiredState st =
      (jaykMatchDesiredModules st).andThen jaykMatchDesiredRooms := rfl
  have hupdEvs :
      (jaykMatchDesiredModules st).evs =
        expectedUpdates st.configMods
          (finsetAsList (dictKeys st.configMods ∩ st.stateModules)) := by
    rw [heq]
  have hjoin0 := updates_countP_zero st.configMods
    (finsetAsList (dictKeys st.configMods ∩ st.stateModules)) isJoinSend
    (fun n ps => ⟨rfl, rfl⟩)
  have hpart0 := updates_countP_zero st.configMods
    (finsetAsList (dictKeys st.configMods ∩ st.stateModules)) isPartSend
    (fun n ps => ⟨rfl, rfl⟩)
  have hload0 := updates_countP_zero st.configMods
    (finsetAsList (dictKeys st.configMods ∩ st.stateModules)) isLoad
    (fun n ps => ⟨rfl, rfl⟩)
  have hunload0 := updates_countP_zero st.configMods
    (finsetAsList (dictKeys st.configMods ∩ st.stateModules)) isUnload
    (fun n ps => ⟨rfl, rfl⟩)
  have hjoinF := updates_filter_nil st.configMods
    (finsetAsList (dictKeys st.configMods ∩ st.stateModules)) isJoinSend
    (fun n ps => ⟨rfl, rfl⟩)
  constructor
  · intro hrooms
    rw [hstate, heq]
    simp only [StepOut.andThen]
    simp only [jaykMatchDesiredRooms]
    rw [hrooms, Finset.sdiff_self]
    split <;> simp [List.countP_append, hjoin0, hpart0, hload0, hunload0]
  · intro hready hsub hne
    rw [hstate, heq]
    simp only [StepOut.andThen]
    simp only [jaykMatchDesiredRooms]
    simp only [hready, Bool.not_true, Bool.false_eq_true, if_false]
    have hleave : st.stateRooms \ st.desiredRooms = ∅ :=
      Finset.sdiff_eq_empty_iff_subset.mpr hsub
    rw [hleave]
    rw [if_neg (show ¬(∅ : Finset String) ≠ ∅ by simp)]
    rw [if_pos hne]
    simp [expectedLoads, List.filter_append, List.countP_append, hjoinF,
      hpart0, isJoinSend, isPartSend]

/-- Witness for `c2_reconcile_minimal` at the spec's concrete states:
modules `{a,b}` with rooms `{#x}` in sync, then desired rooms grown to
`{#x,#y}`. -/
theorem c2_reconcile_minimal_witness :
    ((jaykMatchDesiredState stEqC2).evs.countP isJoinSend = 0 ∧
     (jaykMatchDesiredState stEqC2).evs.countP isPartSend = 0 ∧
     (jaykMatchDesiredState stEqC2).evs.countP isLoad = 0 ∧
     (jaykMatchDesiredState stEqC2).evs.countP isUnload = 0) ∧
    ((jaykMatchDesiredState stGrowC2).evs.filter isJoinSend =
      [Ev.send ⟨none, "JOIN", ["#y"]⟩] ∧
     (jaykMatchDesiredState stGrowC2).evs.countP isPartSend = 0) := by
  have h1 := (c2_reconcile_minimal stEqC2 (by decide) (by decide) (by decide)
    (by decide)).1 (by decide)
  have h2 := (c2_reconcile_minimal stGrowC2 (by decide) (by decide) (by decide)
    (by decide)).2 (by decide) (by decide) (by decide)
  refine ⟨⟨h1.2.1, h1.2.2.1, h1.2.2.2.1, h1.2.2.2.2⟩, ?_, h2.2.2⟩
  rw [h2.2.1]
  decide

/-- Sequencing after a pure step (no events, no error) is just application. -/
theorem andThen_nil_none {σ : Type} (s : σ) (f : σ → StepOut σ) :
    StepOut.andThen ⟨s, [], none⟩ f = f s := by
  simp [StepOut.andThen]

/-- C3 counterexample: a ready CLI bot with no modules, desired rooms
`{#x}`, receives the self-kick `KICK #x bot`.  Processing this single event
emits *two* batched `JOIN` actions for `#x`, not one: the inherited `KICK`
handler already re-runs reconciliation (src/jayk/chatbot.py:276-282), and
the CLI override then runs `match_desired_rooms` once more
(src/jayk/cli/module.py:250-260) before any join confirmation could have
updated `state.rooms`. -/
theorem c3_counterexample :
    kickMsgC3.command = "KICK" ∧
    kickMsgC3.params = ["#x", "bot"] ∧
    stKickC3.nick = some "bot" ∧
    "#x" ∈ stKickC3.desiredRooms ∧
    (jaykHandle stKickC3 kickMsgC3).err = none ∧
    (jaykHandle stKickC3 kickMsgC3).evs.countP isJoinSend = 2 ∧
    (jaykHandle stKickC3 kickMsgC3).evs.countP isJoinSend ≠ 1 := by
  refine ⟨rfl, rfl, rfl, by decide, by decide, by decide, by decide⟩

/-- C3 (amended): for a ready CLI bot with an empty module registry and
configuration, a self-kick (`KICK room nick` with `nick` the bot's current
nickname) from a room in the desired set never errors and emits exactly
*two* join actions, each the batched `JOIN` covering
`desired − (actual − {room})`, a set containing the kicked room: room
reconciliation runs once inside the inherited `KICK` handling and once in
the CLI wrapper, and the actual room set cannot change in between.  (With
a non-empty registry the inherited module-notification loop raises
`AttributeError` instead, because it iterates the registry dict's keys.) -/
theorem c3_selfkick_amended (st : JaykBot) (pfxO : Option String) (room n : String)
    (hreg : st.registry = [])
    (hcfg : st.configMods = [])
    (hsm : st.stateModules = ∅)
    (hready : st.ready = true)
    (hmem : room ∈ st.desiredRooms)
    (hnick : st.nick = some n) :
    (jaykHandle st ⟨pfxO, "KICK", [room, n]⟩).err = none ∧
    (jaykHandle st ⟨pfxO, "KICK", [room, n]⟩).evs.filter isJoinSend =
      [Ev.send ⟨none, "JOIN",
        [joinComma (st.desiredRooms \ (st.stateRooms \ {room}))]⟩,
       Ev.send ⟨none, "JOIN",
        [joinComma (st.desiredRooms \ (st.stateRooms \ {room}))]⟩] ∧
    room ∈ st.desiredRooms \ (st.stateRooms \ {room}) := by
  have hT : room ∈ st.desiredRooms \ (st.stateRooms \ {room}) := by
    rw [Finset.mem_sdiff]
    exact ⟨hmem, by simp⟩
  have hTne : st.desiredRooms \ (st.stateRooms \ {room}) ≠ ∅ :=
    Finset.ne_empty_of_mem hT
  have hfe : finsetAsList (∅ : Finset String) = [] := rfl
  have hcond : (strUpperChars ['K', 'I', 'C', 'K']).asString = "KICK" := by decide
  have h2 : jaykOnLeaveRoom st room none =
      ⟨{ st with stateRooms := st.stateRooms \ {room} }, [], none⟩ := by
    simp [jaykOnLeaveRoom, jaykNotifyModules, hreg]
  have h1 : jaykHandleInner st ⟨pfxO, "KICK", [room, n]⟩ =
      (jaykOnLeaveRoom st room none).andThen jaykMatchDesiredState := by
    simp [jaykHandleInner, hnick, NICK_ERRORS]
  have h3 : jaykMatchDesiredModules { st with stateRooms := st.stateRooms \ {room} } =
      ⟨{ st with stateRooms := st.stateRooms \ {room} }, [], none⟩ := by
    simp [jaykMatchDesiredModules, hcfg, hsm, hreg, dictKeys, hfe, foldSteps,
      StepOut.andThen]
  have h4 : jaykMatchDesiredRooms { st with stateRooms := st.stateRooms \ {room} } =
      ⟨{ st with stateRooms := st.stateRooms \ {room} },
       (if (st.stateRooms \ {room}) \ st.desiredRooms ≠ ∅ then
          [Ev.send ⟨none, "PART",
            [joinComma ((st.stateRooms \ {room}) \ st.desiredRooms)]⟩]
        else []) ++
       [Ev.send ⟨none, "JOIN",
         [joinComma (st.desiredRooms \ (st.stateRooms \ {room}))]⟩],
       none⟩ := by
    simp only [jaykMatchDesiredRooms]
    simp [hready, hTne]
  have hms : jaykMatchDesiredState { st with stateRooms := st.stateRooms \ {room} } =
      ⟨{ st with stateRooms := st.stateRooms \ {room} },
       (if (st.stateRooms \ {room}) \ st.desiredRooms ≠ ∅ then
          [Ev.send ⟨none, "PART",
            [joinComma ((st.stateRooms \ {room}) \ st.desiredRooms)]⟩]
        else []) ++
       [Ev.send ⟨none, "JOIN",
         [joinComma (st.desiredRooms \ (st.stateRooms \ {room}))]⟩],
       none⟩ := by
    rw [jaykMatchDesiredState, h3, andThen_nil_none, h4]
  have h5 : jaykHandle st ⟨pfxO, "KICK", [room, n]⟩ =
      ⟨{ st with stateRooms := st.stateRooms \ {room} },
       ((if (st.stateRooms \ {room}) \ st.desiredRooms ≠ ∅ then
          [Ev.send ⟨none, "PART",
            [joinComma ((st.stateRooms \ {room}) \ st.desiredRooms)]⟩]
        else []) ++
       [Ev.send ⟨none, "JOIN",
         [joinComma (st.desiredRooms \ (st.stateRooms \ {room}))]⟩]) ++
       ((if (st.stateRooms \ {room}) \ st.desiredRooms ≠ ∅ then
          [Ev.send ⟨none, "PART",
            [joinComma ((st.stateRooms \ {room}) \ st.desiredRooms)]⟩]
        else []) ++
       [Ev.send ⟨none, "JOIN",
         [joinComma (st.desiredRooms \ (st.stateRooms \ {room}))]⟩]),
       none⟩ := by
    rw [jaykHandle, h1, h2, andThen_nil_none, hms]
    simp only [StepOut.andThen]
    simp [hcond, h4]
  rw [h5]
  refine ⟨rfl, ?_, hT⟩
  simp only [List.filter_append]
  split <;> simp [isJoinSend]

/-- Witness for `c3_selfkick_amended` at the concrete self-kick. -/
theorem c3_selfkick_amended_witness :
    (jaykHandle stKickC3 kickMsgC3).err = none ∧
    (jaykHandle stKickC3 kickMsgC3).evs.filter isJoinSend =
      [Ev.send ⟨none, "JOIN",
        [joinComma (stKickC3.desiredRooms \ (stKickC3.stateRooms \ {"#x"}))]⟩,
       Ev.send ⟨none, "JOIN",
        [joinComma (stKickC3.desiredRooms \ (stKickC3.stateRooms \ {"#x"}))]⟩] := by
  have h := c3_selfkick_amended stKickC3 (some "ops!o@h") "#x" "bot" rfl rfl rfl
    rfl (by decide) rfl
  exact ⟨h.1, h.2.1⟩
